import Mathlib

/-!
Shallow embedding of the openclaw discord-voice sidecar
(src/extensions/discord-voice/sidecar/src/openclaw_voice/): the audio
helpers from CPython's audioop module that the sidecar calls, the
per-speaker voice-capture state machine of discord_voice.py, the playback
controller, the join lifecycle, and the length-prefixed JSON control
channel of ipc_server.py.

PCM data is modelled at the sample level: a frame is a list of signed
16-bit samples (`List Int`), not raw bytes; consecutive byte pairs of the
Python `bytes` values correspond one-to-one to samples here.  Time is
modelled in integer milliseconds (`Nat`), so the constants 0.8 s and 0.2 s
of discord_voice.py become 800 and 200.
-/

namespace OpenClaw

/-- Clamp a sample to the signed 16-bit range: CPython audioop's `fbound`
for width 2. -/
def clamp16 (x : Int) : Int := max (-32768) (min x 32767)

/-- Model of `audioop.tomono(frag, 2, lfac, rfac)` on 16-bit samples:
interleaved stereo pairs are mixed to mono as `lfac*l + rfac*r`, clamped.
The sidecar calls it with the integer factors (1, 0), for which the
arithmetic is exact, so C's double rounding is omitted. -/
def tomono (lfac rfac : Int) : List Int → List Int
  | l :: r :: rest => clamp16 (l * lfac + r * rfac) :: tomono lfac rfac rest
  | _ => []

/-- Model of `audioop.tostereo(frag, 2, lfac, rfac)`: each mono sample `x`
becomes the interleaved stereo pair `(lfac*x, rfac*x)`, clamped. -/
def tostereo (lfac rfac : Int) (l : List Int) : List Int :=
  l.flatMap fun x => [clamp16 (x * lfac), clamp16 (x * rfac)]

/-- One output-emitting pass of CPython `audioop.ratecv`'s inner loop
(`while (d >= 0) { emit; d -= inrate; }`), interpolating between the
previous and the current sample with the default weights weightA = 1,
weightB = 0.  CPython computes the interpolation in double precision and
truncates toward zero; every use in this development has an exact
quotient, where `Int.tdiv` agrees.  The loop runs at most `d + 1` times
when `inrate ≥ 1`, so the explicit fuel (first numeric argument) never
runs out at the call sites, which pass `(d + inrate).toNat`. -/
def emitGo (inrate prev cur : Int) : Nat → Int → List Int × Int
  | 0, d => ([], d)
  | fuel + 1, d =>
    if 0 ≤ d then
      let out := Int.tdiv (prev * d + cur * (inrate - d)) inrate
      let (outs, d') := emitGo inrate prev cur fuel (d - inrate)
      (out :: outs, d')
    else ([], d)

/-- Filter state of `audioop.ratecv` for one mono channel: the fractional
position `d` and the two samples interpolated between. -/
structure RatecvState where
  d : Int
  prev : Int
  cur : Int
  deriving DecidableEq

/-- Model of `audioop.ratecv`'s outer loop (mono, rates already reduced by
their gcd): while the fractional position is negative another input sample
is consumed (`prev_i = cur_i; cur_i = getsample`), then all due output
samples are emitted.  The invariant `st.d < 0` holds whenever input
remains to be read, matching the C loop structure. -/
def ratecvGo (inrate outrate : Int) : List Int → RatecvState → List Int × RatecvState
  | [], st => ([], st)
  | x :: xs, st =>
    let d1 := st.d + outrate
    let prev := st.cur
    if d1 < 0 then
      ratecvGo inrate outrate xs ⟨d1, prev, x⟩
    else
      let (outs, d2) := emitGo inrate prev x (d1 + inrate).toNat d1
      let (outs2, st2) := ratecvGo inrate outrate xs ⟨d2, prev, x⟩
      (outs ++ outs2, st2)

/-- Model of `audioop.ratecv(frag, 2, 1, inrate, outrate, state)` for mono
16-bit audio: the rates are reduced by their gcd, and a `None` state
starts at `d = -outrate` with zeroed interpolation samples, exactly as
CPython initialises it. -/
def ratecv (inrate outrate : Nat) (data : List Int) (st : Option RatecvState) :
    List Int × RatecvState :=
  let g := Nat.gcd inrate outrate
  let inr : Int := (inrate / g : Nat)
  let outr : Int := (outrate / g : Nat)
  let st0 := st.getD ⟨-outr, 0, 0⟩
  ratecvGo inr outr data st0

/-- Model of `audioop.rms(frag, 2)`: the integer square root of the mean
of the squared samples; an empty fragment yields 0.  CPython computes
`(unsigned)sqrt(sum_squares / n)` in double precision, which equals
`Nat.sqrt (sum_squares / n)`: the floor of a square root commutes with
flooring its argument, and the doubles involved are exact at these
magnitudes. -/
def rms (l : List Int) : Nat :=
  if l.length = 0 then 0
  else Nat.sqrt ((l.map fun x => x.natAbs * x.natAbs).sum / l.length)

/-- Constant `DISCORD_SAMPLE_RATE` of discord_voice.py. -/
def DISCORD_SAMPLE_RATE : Nat := 48000

/-- Constant `STT_SAMPLE_RATE` of discord_voice.py. -/
def STT_SAMPLE_RATE : Nat := 16000

/-- Constant `SILENCE_THRESHOLD_S` of discord_voice.py (0.8 s), in ms. -/
def SILENCE_THRESHOLD_MS : Nat := 800

/-- Constant `RMS_SPEECH_THRESHOLD` of discord_voice.py. -/
def RMS_SPEECH_THRESHOLD : Nat := 300

/-- Resampling pipeline of `_handle_audio_sync`: 48 kHz interleaved stereo
to mono via `audioop.tomono(_, 2, 1, 0)`, then `audioop.ratecv` to 16 kHz
with a fresh (`None`) filter state on every call. -/
def downsampleFrame (pcm48kStereo : List Int) : List Int :=
  (ratecv DISCORD_SAMPLE_RATE STT_SAMPLE_RATE (tomono 1 0 pcm48kStereo) none).1

/-- Per-frame VAD decision of `_handle_audio_sync`:
`is_speech = rms > RMS_SPEECH_THRESHOLD` on the downsampled frame. -/
def isSpeechFrame (pcm16k : List Int) : Bool :=
  decide (rms pcm16k > RMS_SPEECH_THRESHOLD)

/-- PerSpeakerState of one (session, speaker) pair in `VoiceSession`:
`user_speaking[uid]` (`defaultdict(bool)`, so `false` when absent),
`user_last_speech[uid]` (an absent dict key is `none`), and
`user_audio[uid]` (`defaultdict(bytearray)`, empty when absent). -/
structure SpeakerState where
  speaking : Bool
  lastSpeech : Option Nat
  buffer : List Int
  deriving DecidableEq

/-- State of a speaker no frame has ever been accepted for. -/
def initSpeaker : SpeakerState := ⟨false, none, []⟩

/-- Outbound events of the capture pipeline: the `_on_voice_activity`
callback and the `_on_transcript_ready` callback. -/
inductive Ev where
  | voiceActivity (isSpeaking : Bool)
  | transcriptReady (pcm16k : List Int)
  deriving DecidableEq

/-- Model of `DiscordVoiceBot._handle_audio_sync` for one speaker of an
existing session: downsample, classify, mark the speaker speaking and
stamp `user_last_speech = now` on a speech frame, and append the
downsampled frame to the buffer whenever the speaker is marked speaking.
The ingestion path emits no events: in the source its only outputs are a
log line at speech start and the state mutation; finalization is left to
the watchdog. -/
def handle_audio_sync (s : SpeakerState) (pcm48kStereo : List Int) (now : Nat) :
    SpeakerState × List Ev :=
  let pcm16k := downsampleFrame pcm48kStereo
  let s1 : SpeakerState :=
    if isSpeechFrame pcm16k then { s with speaking := true, lastSpeech := some now } else s
  let s2 : SpeakerState :=
    if s1.speaking then { s1 with buffer := s1.buffer ++ pcm16k } else s1
  (s2, [])

/-- Model of one `_watchdog_loop` scan over one speaker: a speaker appears
in the scan only while it has a `user_last_speech` entry (the loop
iterates `session.user_last_speech.keys()`); with a stale timestamp
(`now - last >= SILENCE_THRESHOLD`) and a non-empty buffer the utterance
is finalized: the buffer is cleared, the speaking flag reset, the
timestamp entry deleted, the offset voice-activity event emitted when the
speaker was marked speaking, and the buffered audio handed to
`_on_transcript_ready`. -/
def watchdog_scan (s : SpeakerState) (now : Nat) : SpeakerState × List Ev :=
  match s.lastSpeech with
  | none => (s, [])
  | some last =>
    if s.buffer ≠ [] ∧ now - last ≥ SILENCE_THRESHOLD_MS then
      (⟨false, none, []⟩,
        (if s.speaking then [Ev.voiceActivity false] else []) ++
          [Ev.transcriptReady s.buffer])
    else (s, [])

/-- One unit of work on the owner event loop, for one speaker: an audio
frame delivered by `loop.call_soon_threadsafe`, or one watchdog pass, each
with the `time.monotonic()` value (in ms) it observes. -/
inductive Inp where
  | frame (pcm48kStereo : List Int) (now : Nat)
  | scan (now : Nat)
  deriving DecidableEq

/-- A single step of the single-owner event loop for one speaker. -/
def step (s : SpeakerState) : Inp → SpeakerState × List Ev
  | .frame pcm now => handle_audio_sync s pcm now
  | .scan now => watchdog_scan s now

/-- Run a list of owner-loop work items, concatenating emitted events. -/
def run (s : SpeakerState) : List Inp → SpeakerState × List Ev
  | [] => (s, [])
  | i :: is =>
    let (s1, e1) := step s i
    let (s2, e2) := run s1 is
    (s2, e1 ++ e2)

/-- Concrete 48 kHz stereo frame used for concrete instantiations: three
stereo sample pairs whose left channel holds 1000. -/
def speechFrame48 : List Int := [1000, 0, 1000, 0, 1000, 0]

/-!
Scenario vocabulary for segmentation (claim C2).
-/

/-- Frame work items built from (48 kHz stereo PCM, arrival time) pairs. -/
def frameInps (l : List (List Int × Nat)) : List Inp :=
  l.map fun pt => Inp.frame pt.1 pt.2

/-- Audio appended by a list of owner-loop work items: the downsampled PCM
of each frame input, in order; watchdog passes contribute nothing. -/
def inpAudio (l : List Inp) : List Int :=
  l.flatMap fun i => match i with
    | .frame pcm _ => downsampleFrame pcm
    | .scan _ => []

/-- Work items that cannot end an utterance whose last speech frame was at
time `t1`: a frame classified as non-speech, or a watchdog pass while the
elapsed silence is still below the threshold. -/
def quietInput (t1 : Nat) : Inp → Prop
  | .frame pcm _ => isSpeechFrame (downsampleFrame pcm) = false
  | .scan u => u - t1 < SILENCE_THRESHOLD_MS

/-!
Playback controller (claim C4).
-/

/-- Playback-relevant state of one `VoiceSession` and its discord.py voice
client: `connected` stands for `voice_client` being present, `vcPlaying`
for `voice_client.is_playing()`, and `isPlaying` for the session's own
`is_playing` flag. -/
structure PlaybackState where
  connected : Bool
  vcPlaying : Bool
  isPlaying : Bool
  deriving DecidableEq

/-- Modelled from the discord.py collaborator's documented contract:
`VoiceClient.play(source)` raises `ClientException("Already playing
audio")` when a source is already playing, and otherwise starts the new
source.  (discord.py is an external library; only this contract of it is
embedded.) -/
def vcPlay (playing : Bool) : Except String Unit :=
  if playing then .error "Already playing audio" else .ok ()

/-- Model of `DiscordVoiceBot.play_pcm`: for an unjoined session the call
returns immediately; otherwise the PCM is resampled to 48 kHz when needed
(with a fresh `None` ratecv state), duplicated to stereo via
`audioop.tostereo(_, 2, 1, 1)`, the session's `is_playing` flag is set,
and `voice_client.play` is invoked.  The function contains no stop of an
in-flight playback.  The result carries the new state, the outcome of the
`play` call, and the stereo source handed to `discord.PCMAudio` when
playback started. -/
def play_pcm (s : PlaybackState) (pcm : List Int) (sampleRate : Nat) :
    PlaybackState × Except String Unit × Option (List Int) :=
  if ¬s.connected then (s, .ok (), none)
  else
    let audio := if sampleRate ≠ DISCORD_SAMPLE_RATE
      then (ratecv sampleRate DISCORD_SAMPLE_RATE pcm none).1 else pcm
    let audio2 := tostereo 1 1 audio
    let s1 := { s with isPlaying := true }
    match vcPlay s1.vcPlaying with
    | .error e => (s1, .error e, none)
    | .ok _ => ({ s1 with vcPlaying := true }, .ok (), some audio2)

/-!
Join lifecycle (claim C10).
-/

/-- Reasons surfaced through the error `voice_state` notification of
`DiscordVoiceBot.join`. -/
inductive JoinErr where
  | guildNotFound (guildId : Nat)
  | channelNotFound (channelId : Nat)
  | exc (msg : String)
  deriving DecidableEq

/-- Connection states reported by `_on_state_change`. -/
inductive VState where
  | connecting
  | connected
  | disconnected
  | error (reason : JoinErr)
  deriving DecidableEq

/-- The fields of a `VoiceSession` fixed at creation. -/
structure SessionEntry where
  guildId : Nat
  channelId : Nat
  deriving DecidableEq

/-- The `_sessions` registry: session id → `VoiceSession`. -/
def Registry := List (String × SessionEntry)

/-- Python dict assignment `self._sessions[session_id] = session`. -/
def regInsert (r : Registry) (sid : String) (e : SessionEntry) : Registry :=
  (sid, e) :: (r : List (String × SessionEntry)).filter fun p => p.1 ≠ sid

/-- Outcomes of the external calls `DiscordVoiceBot.join` makes, one value
per call: `client.get_guild`, `guild.get_channel` (with whether the result
is a `discord.VoiceChannel`), the awaited `channel.connect`, and
`vc.listen` — the latter two as `Except`, an exception being the error
case. -/
structure JoinEnv where
  guildFound : Bool
  channelFound : Bool
  channelIsVoice : Bool
  connectRes : Except String Unit
  listenRes : Except String Unit

/-- Model of `DiscordVoiceBot.join`: a failed guild lookup or channel
lookup reports an error and returns before a session object exists; then
"connecting" is reported, and inside the try block the connection and the
listener are established, after which — and only after which — the session
is stored in the registry and "connected" is reported.  Any exception in
the try block is caught and reported as an error state. -/
def join (env : JoinEnv) (reg : Registry) (sid : String) (gid cid : Nat) :
    Registry × List VState :=
  if ¬env.guildFound then (reg, [.error (.guildNotFound gid)])
  else if ¬(env.channelFound ∧ env.channelIsVoice) then
    (reg, [.error (.channelNotFound cid)])
  else
    match env.connectRes with
    | .error e => (reg, [.connecting, .error (.exc e)])
    | .ok _ =>
      match env.listenRes with
      | .error e => (reg, [.connecting, .error (.exc e)])
      | .ok _ => (regInsert reg sid ⟨gid, cid⟩, [.connecting, .connected])

/-!
Control channel (claim C8): the framing of ipc_server.py and its JSON layer.

The JSON layer models the CPython json module as the sidecar uses it:
`json.dumps(msg, ensure_ascii=False)` with the default separators, and
`json.loads` restricted to the canonical output format of that dumps
(which is all the framing loop ever feeds it in a round trip).  Python
strings are lists of Unicode code points; byte strings are lists of
byte values.  Numbers cover the integer control-message fields; floats
are outside this model.
-/

/-! Digits -/

def natDigitsGo : Nat → Nat → List Nat
  | 0, _ => []
  | fuel + 1, n => if n = 0 then [] else natDigitsGo fuel (n / 10) ++ [n % 10 + 48]

/-- Decimal representation of a natural number as code points: Python's
`str(n)` for `n >= 0`. -/
def natToDec (n : Nat) : List Nat := if n = 0 then [48] else natDigitsGo n n

/-- Serialization of a Python int by `json.dumps`: `str(n)`, a minus sign
followed by the digits of the absolute value when negative. -/
def dumpInt (n : Int) : List Nat :=
  if n < 0 then 45 :: natToDec n.natAbs else natToDec n.toNat

/-- Digit scanning of the number grammar of `json.loads`: consume decimal
digits, accumulating the value, and stop at the first non-digit. -/
def parseDigits (acc : Nat) : List Nat → Nat × List Nat
  | [] => (acc, [])
  | c :: rest =>
    if 48 ≤ c ∧ c ≤ 57 then parseDigits (acc * 10 + (c - 48)) rest else (acc, c :: rest)

/-! Strings -/

def hexDigit (n : Nat) : Nat := if n < 10 then n + 48 else n + 87

/-- Value of one hexadecimal digit of a `\\uXXXX` escape, per
`json.loads` (accepting both letter cases). -/
def parseHex (c : Nat) : Option Nat :=
  if 48 ≤ c ∧ c ≤ 57 then some (c - 48)
  else if 97 ≤ c ∧ c ≤ 102 then some (c - 87)
  else if 65 ≤ c ∧ c ≤ 70 then some (c - 55)
  else none

/-- Escaping of one code point by `json.dumps(…, ensure_ascii=False)`:
`"` and `\\` are backslash-escaped, the control characters with one-letter
shortcuts use them, the remaining control characters become `\\u00xx`,
everything else is emitted literally. -/
def escapeCp (c : Nat) : List Nat :=
  if c = 34 then [92, 34]
  else if c = 92 then [92, 92]
  else if c < 32 then
    if c = 8 then [92, 98]
    else if c = 9 then [92, 116]
    else if c = 10 then [92, 110]
    else if c = 12 then [92, 102]
    else if c = 13 then [92, 114]
    else [92, 117, 48, 48, hexDigit (c / 16), hexDigit (c % 16)]
  else [c]

/-- Serialization of a Python string by `json.dumps`: a double quote, the
escaped code points, a closing double quote. -/
def dumpStr (s : List Nat) : List Nat := 34 :: s.flatMap escapeCp ++ [34]

/-- Meaning of a one-character escape sequence in `json.loads`
(`BACKSLASH` table of the json scanner). -/
def unescape (e : Nat) : Option Nat :=
  if e = 34 then some 34 else if e = 92 then some 92 else if e = 47 then some 47
  else if e = 98 then some 8 else if e = 102 then some 12 else if e = 110 then some 10
  else if e = 114 then some 13 else if e = 116 then some 9 else none

/-- Reading the four hex digits of a `\\uXXXX` escape in `json.loads`. -/
def readHex4 : List Nat → Option (Nat × List Nat)
  | h1 :: h2 :: h3 :: h4 :: rest =>
    match parseHex h1, parseHex h2, parseHex h3, parseHex h4 with
    | some v1, some v2, some v3, some v4 =>
      some (((v1 * 16 + v2) * 16 + v3) * 16 + v4, rest)
    | _, _, _, _ => none
  | _ => none

/-- Reading one escape sequence (after the backslash) in the string
scanner of `json.loads`. -/
def readEscape : List Nat → Option (Nat × List Nat)
  | [] => none
  | e :: rest =>
    if e = 117 then readHex4 rest
    else
      match unescape e with
      | some u => some (u, rest)
      | none => none

/-- String scanner of `json.loads` (`py_scanstring`), on the canonical
escaping produced by `dumpStr`: reads code points up to the closing
unescaped double quote.  The fuel is bounded by the input length, which
suffices because every step consumes at least one code point. -/
def parseStrGo : Nat → List Nat → Option (List Nat × List Nat)
  | 0, _ => none
  | fuel + 1, input =>
    match input with
    | [] => none
    | c :: rest =>
      if c = 34 then some ([], rest)
      else if c = 92 then
        match readEscape rest with
        | some (u, rest2) =>
          match parseStrGo fuel rest2 with
          | some (s, r) => some (u :: s, r)
          | none => none
        | none => none
      else
        match parseStrGo fuel rest with
        | some (s, r) => some (c :: s, r)
        | none => none

/-- String scanner entry point, with the fuel set to the input length. -/
def parseStr (l : List Nat) : Option (List Nat × List Nat) := parseStrGo l.length l

/-! JSON values -/

inductive JVal where
  | jnull
  | jbool (b : Bool)
  | jint (n : Int)
  | jstr (s : List Nat)
  | jarr (xs : List JVal)
  | jobj (kvs : List (List Nat × JVal))

/-- A code point Python's UTF-8 encoder accepts: in Unicode range and not
a surrogate. -/
def wfCp (c : Nat) : Prop := c < 1114112 ∧ ¬(55296 ≤ c ∧ c < 57344)

/-- Well-formedness of all code points of a string. -/
def wfStr (s : List Nat) : Prop := ∀ c ∈ s, wfCp c

/-- Well-formedness of a message value: every string in it encodes. -/
inductive JWF : JVal → Prop where
  | jnull : JWF .jnull
  | jbool (b : Bool) : JWF (.jbool b)
  | jint (n : Int) : JWF (.jint n)
  | jstr (s : List Nat) (h : wfStr s) : JWF (.jstr s)
  | jarr (xs : List JVal) (h : ∀ x ∈ xs, JWF x) : JWF (.jarr xs)
  | jobj (kvs : List (List Nat × JVal)) (hk : ∀ kv ∈ kvs, wfStr kv.1)
      (hv : ∀ kv ∈ kvs, JWF kv.2) : JWF (.jobj kvs)

mutual

/-- Model of `json.dumps(v, ensure_ascii=False)` with the default
separators `", "` and `": "`, at the code-point level. -/
def dumps : JVal → List Nat
  | .jnull => [110, 117, 108, 108]
  | .jbool true => [116, 114, 117, 101]
  | .jbool false => [102, 97, 108, 115, 101]
  | .jint n => dumpInt n
  | .jstr s => dumpStr s
  | .jarr xs => 91 :: dumpElems xs ++ [93]
  | .jobj kvs => 123 :: dumpMembers kvs ++ [125]

/-- Array elements of `dumps`, joined by `", "`. -/
def dumpElems : List JVal → List Nat
  | [] => []
  | [x] => dumps x
  | x :: y :: xs => dumps x ++ 44 :: 32 :: dumpElems (y :: xs)

/-- Object members of `dumps`: key string, `": "`, value, joined by
`", "`. -/
def dumpMembers : List (List Nat × JVal) → List Nat
  | [] => []
  | [kv] => dumpStr kv.1 ++ 58 :: 32 :: dumps kv.2
  | kv :: kv2 :: kvs =>
    dumpStr kv.1 ++ 58 :: 32 :: dumps kv.2 ++ 44 :: 32 :: dumpMembers (kv2 :: kvs)

end

mutual

/-- Model of the value scanner of `json.loads` on the canonical format
produced by `dumps` (which is all the framing loop ever feeds it in a
round trip): null/true/false literals, strings, arrays and objects with
the canonical separators, and integers.  The fuel decreases on every
nested call; the callers hand it the input length plus one, which
suffices because a nesting level always consumes input. -/
def parseVal : Nat → List Nat → Option (JVal × List Nat)
  | 0, _ => none
  | _ + 1, [] => none
  | fuel + 1, c :: rest =>
    if c = 110 then
      if rest.take 3 = [117, 108, 108] then some (.jnull, rest.drop 3) else none
    else if c = 116 then
      if rest.take 3 = [114, 117, 101] then some (.jbool true, rest.drop 3) else none
    else if c = 102 then
      if rest.take 4 = [97, 108, 115, 101] then some (.jbool false, rest.drop 4) else none
    else if c = 34 then
      match parseStr rest with
      | some (s, r) => some (.jstr s, r)
      | none => none
    else if c = 91 then
      match rest with
      | [] => none
      | c2 :: rest2 =>
        if c2 = 93 then some (.jarr [], rest2)
        else
          match parseElems fuel (c2 :: rest2) with
          | some (xs, r) => some (.jarr xs, r)
          | none => none
    else if c = 123 then
      match rest with
      | [] => none
      | c2 :: rest2 =>
        if c2 = 125 then some (.jobj [], rest2)
        else
          match parseMembers fuel (c2 :: rest2) with
          | some (kvs, r) => some (.jobj kvs, r)
          | none => none
    else if c = 45 then
      match rest with
      | [] => none
      | d :: rest2 =>
        if 48 ≤ d ∧ d ≤ 57 then
          let (n, r) := parseDigits (d - 48) rest2
          some (.jint (-(n : Int)), r)
        else none
    else if 48 ≤ c ∧ c ≤ 57 then
      let (n, r) := parseDigits (c - 48) rest
      some (.jint ((n : Int)), r)
    else none

/-- Array-element loop of `json.loads`: value, then `", "` and another
element or the closing bracket. -/
def parseElems : Nat → List Nat → Option (List JVal × List Nat)
  | 0, _ => none
  | fuel + 1, input =>
    match parseVal fuel input with
    | none => none
    | some (x, rest) =>
      match rest with
      | [] => none
      | c :: rest2 =>
        if c = 44 then
          match rest2 with
          | [] => none
          | c2 :: rest3 =>
            if c2 = 32 then
              match parseElems fuel rest3 with
              | some (xs, r) => some (x :: xs, r)
              | none => none
            else none
        else if c = 93 then some ([x], rest2)
        else none

/-- Object-member loop of `json.loads`: key string, `": "`, value, then
`", "` and another member or the closing brace. -/
def parseMembers : Nat → List Nat → Option (List (List Nat × JVal) × List Nat)
  | 0, _ => none
  | fuel + 1, input =>
    match input with
    | [] => none
    | c :: krest =>
      if c = 34 then
        match parseStr krest with
        | none => none
        | some (k, rest) =>
          if rest.take 2 = [58, 32] then
            match parseVal fuel (rest.drop 2) with
            | none => none
            | some (v, rest2) =>
              match rest2 with
              | [] => none
              | c2 :: rest3 =>
                if c2 = 44 then
                  match rest3 with
                  | [] => none
                  | c3 :: rest4 =>
                    if c3 = 32 then
                      match parseMembers fuel rest4 with
                      | some (kvs, r) => some ((k, v) :: kvs, r)
                      | none => none
                    else none
                else if c2 = 125 then some ([(k, v)], rest3)
                else none
          else none
      else none

end

/-! UTF-8 -/

def utf8Cp (c : Nat) : List Nat :=
  if c < 128 then [c]
  else if c < 2048 then [192 + c / 64, 128 + c % 64]
  else if c < 65536 then [224 + c / 4096, 128 + c / 64 % 64, 128 + c % 64]
  else [240 + c / 262144, 128 + c / 4096 % 64, 128 + c / 64 % 64, 128 + c % 64]

/-- UTF-8 encoding of a string, code point by code point. -/
def utf8 (s : List Nat) : List Nat := s.flatMap utf8Cp

/-- UTF-8 decoding (`bytes.decode("utf-8")`) as the framing loop applies
it to payload slices: leading byte classified by range, continuation
bytes checked for the 10xxxxxx form, the code point reassembled.  The
fuel is bounded by the byte count; every step consumes at least one
byte. -/
def utf8DecGo : Nat → List Nat → Option (List Nat)
  | _, [] => some []
  | 0, _ :: _ => none
  | fuel + 1, b :: bs =>
    if b < 128 then
      match utf8DecGo fuel bs with
      | some cps => some (b :: cps)
      | none => none
    else if b < 192 then none
    else if b < 224 then
      match bs with
      | b1 :: bs2 =>
        if 128 ≤ b1 ∧ b1 < 192 then
          match utf8DecGo fuel bs2 with
          | some cps => some (((b - 192) * 64 + (b1 - 128)) :: cps)
          | none => none
        else none
      | [] => none
    else if b < 240 then
      match bs with
      | b1 :: b2 :: bs2 =>
        if (128 ≤ b1 ∧ b1 < 192) ∧ (128 ≤ b2 ∧ b2 < 192) then
          match utf8DecGo fuel bs2 with
          | some cps =>
            some ((((b - 224) * 64 + (b1 - 128)) * 64 + (b2 - 128)) :: cps)
          | none => none
        else none
      | _ => none
    else if b < 248 then
      match bs with
      | b1 :: b2 :: b3 :: bs2 =>
        if (128 ≤ b1 ∧ b1 < 192) ∧ (128 ≤ b2 ∧ b2 < 192) ∧ (128 ≤ b3 ∧ b3 < 192) then
          match utf8DecGo fuel bs2 with
          | some cps =>
            some (((((b - 240) * 64 + (b1 - 128)) * 64 + (b2 - 128)) * 64 + (b3 - 128)) :: cps)
          | none => none
        else none
      | _ => none
    else none

/-- UTF-8 decoding entry point, fuel set to the byte count. -/
def utf8Dec (bs : List Nat) : Option (List Nat) := utf8DecGo bs.length bs

/-! Framing -/

def word32 (a b c d : Nat) : Nat := ((a * 256 + b) * 256 + c) * 256 + d

/-- Big-endian 32-bit write: `struct.pack(">I", n)` (defined for
`n < 2^32`; the pack call raises otherwise). -/
def be32 (n : Nat) : List Nat :=
  [n / 16777216 % 256, n / 65536 % 256, n / 256 % 256, n % 256]

/-- Model of `encode_message` of ipc_server.py: the UTF-8 JSON payload
preceded by its 4-byte big-endian byte length. -/
def encode_message (m : JVal) : List Nat :=
  be32 (utf8 (dumps m)).length ++ utf8 (dumps m)

/-- Model of `json.loads(payload.decode("utf-8"))` as `_handle_client`
applies it to one extracted payload; trailing data after the value is an
error, as in Python. -/
def loads (bs : List Nat) : Option JVal :=
  match utf8Dec bs with
  | none => none
  | some cps =>
    match parseVal (cps.length + 1) cps with
    | some (v, []) => some v
    | _ => none

/-- Inner framing loop of `IpcServer._handle_client`: while at least four
buffered bytes remain, read the declared length, stop if the frame is
still incomplete, otherwise slice the payload out and continue.  Each
iteration consumes at least the 4-byte header, so the buffer length
bounds the iteration count and serves as fuel. -/
def extractGo : Nat → List Nat → List (List Nat) × List Nat
  | 0, buf => ([], buf)
  | fuel + 1, buf =>
    match buf with
    | a :: b :: c :: d :: rest =>
      if rest.length < word32 a b c d then ([], buf)
      else
        let (ps, r) := extractGo fuel (rest.drop (word32 a b c d))
        (rest.take (word32 a b c d) :: ps, r)
    | _ => ([], buf)

/-- All complete frames extractable from the buffer, plus the leftover. -/
def extractFrames (buf : List Nat) : List (List Nat) × List Nat :=
  extractGo buf.length buf

/-- Outer read loop of `_handle_client`: append each received chunk to
the carry-over buffer and extract every complete frame. -/
def clientPayloads : List Nat → List (List Nat) → List (List Nat)
  | _, [] => []
  | buf, ck :: cks =>
    let (ps, r) := extractFrames (buf ++ ck)
    ps ++ clientPayloads r cks

/-- Messages the framing loop delivers to `_on_message`: each complete
payload is JSON-decoded, and payloads that fail to decode are logged and
skipped (`json.JSONDecodeError` handler). -/
def clientMessages (chunks : List (List Nat)) : List JVal :=
  (clientPayloads [] chunks).filterMap loads

/-- Characters that may legally follow a value in the canonical
serialization: nothing, a comma, or a closing bracket or brace. -/
def Bnd (r : List Nat) : Prop :=
  r = [] ∨ ∃ c t, r = c :: t ∧ (c = 44 ∨ c = 93 ∨ c = 125)

/-! Framing helpers -/

/-- One length-prefixed frame of the wire protocol. -/
def frameBytes (p : List Nat) : List Nat := be32 p.length ++ p

/-- A buffer the framing loop leaves untouched: shorter than the header, or
with fewer remaining bytes than the declared length. -/
def Incomplete (r : List Nat) : Prop :=
  r.length < 4 ∨ ∃ a b c d t, r = a :: b :: c :: d :: t ∧ t.length < word32 a b c d

/-!
Basic evaluation lemmas.
-/

/-- The RMS of an all-zero fragment is 0 (the empty fragment included). -/
theorem rms_zero_of_all_zero (l : List Int) (h : ∀ x ∈ l, x = 0) : rms l = 0 := by
  rcases l with _ | ⟨a, l⟩
  · rfl
  · have hsum : (((a :: l).map fun x => x.natAbs * x.natAbs)).sum = 0 := by
      apply List.sum_eq_zero
      intro n hn
      simp only [List.mem_map] at hn
      obtain ⟨x, hx, rfl⟩ := hn
      rw [h x hx]
      rfl
    unfold rms
    rw [if_neg (by simp), hsum]
    simp

/-- A frame classified as speech is non-empty (the empty frame has RMS 0). -/
theorem ne_nil_of_isSpeech (l : List Int) (h : isSpeechFrame l = true) : l ≠ [] := by
  intro hl
  subst hl
  simp [isSpeechFrame, rms, RMS_SPEECH_THRESHOLD] at h

/-- The concrete frame downsamples to the single 16 kHz sample 1000. -/
theorem downsample_speechFrame48 : downsampleFrame speechFrame48 = [1000] := rfl

/-- RMS of the downsampled concrete frame. -/
theorem rms_single_1000 : rms [1000] = 1000 := by
  have h : (1000 : Nat) = Nat.sqrt 1000000 := Nat.eq_sqrt.mpr (by norm_num)
  simp [rms]
  omega

/-- The concrete frame classifies as speech. -/
theorem isSpeech_speechFrame48 : isSpeechFrame (downsampleFrame speechFrame48) = true := by
  rw [downsample_speechFrame48]
  simp [isSpeechFrame, rms_single_1000, RMS_SPEECH_THRESHOLD]

/-!
Claim C9: the VAD decision.
-/

/-- C9: the per-frame VAD decision of `_handle_audio_sync` returns true
exactly when the frame's RMS strictly exceeds the configured threshold,
and an all-zero or empty frame yields RMS 0 and classifies as non-speech. -/
theorem c9_vad_decision (pcm : List Int) (hz : ∀ x ∈ pcm, x = 0) :
    (∀ q : List Int, isSpeechFrame q = true ↔ rms q > RMS_SPEECH_THRESHOLD) ∧
    rms pcm = 0 ∧ isSpeechFrame pcm = false := by
  refine ⟨fun q => by simp [isSpeechFrame], rms_zero_of_all_zero pcm hz, ?_⟩
  simp [isSpeechFrame, rms_zero_of_all_zero pcm hz, RMS_SPEECH_THRESHOLD]

/-- Witness for C9 at the concrete all-zero frame `[0, 0]`. -/
theorem c9_vad_decision_witness :
    (∀ q : List Int, isSpeechFrame q = true ↔ rms q > RMS_SPEECH_THRESHOLD) ∧
    rms [0, 0] = 0 ∧ isSpeechFrame [0, 0] = false :=
  c9_vad_decision [0, 0] (by decide)

/-!
Claim C1: onset notification.
-/

/-- C1 counterexample: a speech frame arriving while the speaker is IDLE
performs the IDLE → SPEAKING transition, yet the ingestion path emits no
event at all — in particular the voice-activity callback is not invoked
with `is_speaking = true`. -/
theorem c1_counterexample :
    (handle_audio_sync initSpeaker speechFrame48 0).1.speaking = true ∧
    (handle_audio_sync initSpeaker speechFrame48 0).2 = [] := by
  refine ⟨?_, rfl⟩
  simp [handle_audio_sync, isSpeech_speechFrame48, initSpeaker]

/-- C1 amended: a speech frame performs the IDLE → SPEAKING transition
(speaking flag set, `lastSpeechTime` stamped) but the ingestion path emits
no onset notification — it emits no events at all; the only voice-activity
emission is the offset with `is_speaking = false`, produced exactly once
when the watchdog finalizes a speaking stale speaker. -/
theorem c1_amended (s s' : SpeakerState) (pcm : List Int) (now t ls : Nat)
    (hspeech : isSpeechFrame (downsampleFrame pcm) = true)
    (hsp : s'.speaking = true) (hls : s'.lastSpeech = some ls)
    (hbuf : s'.buffer ≠ []) (hstale : SILENCE_THRESHOLD_MS ≤ t - ls) :
    (handle_audio_sync s pcm now).1.speaking = true ∧
    (handle_audio_sync s pcm now).1.lastSpeech = some now ∧
    (handle_audio_sync s pcm now).2 = [] ∧
    (watchdog_scan s' t).2 = [Ev.voiceActivity false, Ev.transcriptReady s'.buffer] ∧
    (watchdog_scan s' t).1.speaking = false := by
  refine ⟨?_, ?_, rfl, ?_, ?_⟩
  · simp [handle_audio_sync, hspeech]
  · simp [handle_audio_sync, hspeech]
  · simp [watchdog_scan, hls, hsp, hbuf, hstale]
  · simp [watchdog_scan, hls, hsp, hbuf, hstale]

/-- Witness for C1's amended theorem at the concrete frame and a concrete
stale speaking state. -/
theorem c1_amended_witness :
    (handle_audio_sync initSpeaker speechFrame48 0).1.speaking = true ∧
    (handle_audio_sync initSpeaker speechFrame48 0).1.lastSpeech = some 0 ∧
    (handle_audio_sync initSpeaker speechFrame48 0).2 = [] ∧
    (watchdog_scan ⟨true, some 0, [1000]⟩ 800).2 =
      [Ev.voiceActivity false, Ev.transcriptReady [1000]] ∧
    (watchdog_scan ⟨true, some 0, [1000]⟩ 800).1.speaking = false :=
  c1_amended initSpeaker ⟨true, some 0, [1000]⟩ speechFrame48 0 800 0
    isSpeech_speechFrame48 rfl rfl (by decide) (by decide)

/-!
Claims C5, C6, C7: invariants of the owner loop.
-/

/-- The ingestion step preserves the invariant that the buffer is non-empty
only while the speaker is marked speaking. -/
theorem handle_preserves_inv (s : SpeakerState) (pcm : List Int) (now : Nat)
    (h : s.buffer ≠ [] → s.speaking = true) :
    (handle_audio_sync s pcm now).1.buffer ≠ [] →
      (handle_audio_sync s pcm now).1.speaking = true := by
  by_cases hsp : isSpeechFrame (downsampleFrame pcm) = true <;>
    by_cases hspk : s.speaking = true <;>
      (simp [handle_audio_sync, hsp, hspk]; try simp_all)

/-- The watchdog step preserves the same invariant. -/
theorem scan_preserves_inv (s : SpeakerState) (now : Nat)
    (h : s.buffer ≠ [] → s.speaking = true) :
    (watchdog_scan s now).1.buffer ≠ [] → (watchdog_scan s now).1.speaking = true := by
  unfold watchdog_scan
  cases hls : s.lastSpeech with
  | none => exact h
  | some last =>
    by_cases hc : s.buffer ≠ [] ∧ now - last ≥ SILENCE_THRESHOLD_MS
    · simp [hc, initSpeaker]
    · simp [hc]
      exact fun hb => h (by simpa using hb)

/-- Any state reachable by the owner loop satisfies the buffer/speaking
invariant. -/
theorem run_inv (inps : List Inp) (s : SpeakerState)
    (h : s.buffer ≠ [] → s.speaking = true) :
    (run s inps).1.buffer ≠ [] → (run s inps).1.speaking = true := by
  induction inps generalizing s with
  | nil => exact h
  | cons i is ih =>
    cases i with
    | frame pcm now =>
      simpa [run, step] using ih (handle_audio_sync s pcm now).1
        (handle_preserves_inv s pcm now h)
    | scan now =>
      simpa [run, step] using ih (watchdog_scan s now).1
        (scan_preserves_inv s now h)

/-- A finalizing watchdog pass (one that emits events) leaves the speaker
in the initial idle state: buffer cleared, speaking flag reset, timestamp
entry deleted. -/
theorem finalize_resets (s : SpeakerState) (t : Nat)
    (h : (watchdog_scan s t).2 ≠ []) : (watchdog_scan s t).1 = initSpeaker := by
  unfold watchdog_scan at *
  cases hls : s.lastSpeech with
  | none => simp [hls] at h
  | some last =>
    by_cases hc : s.buffer ≠ [] ∧ t - last ≥ SILENCE_THRESHOLD_MS
    · simp [hls, hc, initSpeaker]
    · simp [hls, hc] at h

/-- C5: for every trace of owner-loop work items starting from a fresh
speaker, the buffer is non-empty only while the speaking flag is true, and
a finalizing watchdog pass clears the buffer and resets the speaking flag
(and deletes the timestamp) in the very state it produces, before any
further input is processed. -/
theorem c5_buffer_invariant (inps : List Inp) (s' : SpeakerState) (t : Nat) :
    ((run initSpeaker inps).1.buffer ≠ [] → (run initSpeaker inps).1.speaking = true) ∧
    ((watchdog_scan s' t).2 ≠ [] →
      (watchdog_scan s' t).1.buffer = [] ∧ (watchdog_scan s' t).1.speaking = false ∧
        (watchdog_scan s' t).1.lastSpeech = none) := by
  refine ⟨run_inv inps initSpeaker (by simp [initSpeaker]), fun h => ?_⟩
  rw [finalize_resets s' t h]
  exact ⟨rfl, rfl, rfl⟩

/-- Witness for C5 at a concrete one-frame trace and a concrete finalizing
state. -/
theorem c5_buffer_invariant_witness :
    ((run initSpeaker [Inp.frame speechFrame48 0]).1.buffer ≠ [] →
      (run initSpeaker [Inp.frame speechFrame48 0]).1.speaking = true) ∧
    ((watchdog_scan ⟨true, some 0, [1000]⟩ 800).2 ≠ [] →
      (watchdog_scan ⟨true, some 0, [1000]⟩ 800).1.buffer = [] ∧
        (watchdog_scan ⟨true, some 0, [1000]⟩ 800).1.speaking = false ∧
        (watchdog_scan ⟨true, some 0, [1000]⟩ 800).1.lastSpeech = none) :=
  c5_buffer_invariant [Inp.frame speechFrame48 0] ⟨true, some 0, [1000]⟩ 800

/-- A trace whose frames all classify as non-speech leaves a fresh speaker
untouched and emits nothing. -/
theorem run_idle_aux (inps : List Inp)
    (h : ∀ pcm now, Inp.frame pcm now ∈ inps →
      isSpeechFrame (downsampleFrame pcm) = false) :
    run initSpeaker inps = (initSpeaker, []) := by
  induction inps with
  | nil => rfl
  | cons i is ih =>
    have hstep : step initSpeaker i = (initSpeaker, []) := by
      cases i with
      | frame pcm now =>
        have hsp := h pcm now (List.mem_cons_self _ _)
        simp [step, handle_audio_sync, hsp, initSpeaker]
      | scan now => simp [step, watchdog_scan, initSpeaker]
    have ih' := ih fun pcm now hm => h pcm now (List.mem_cons_of_mem _ hm)
    simp [run, hstep, ih']

/-- C6: a speaker whose frames never cross the speech threshold produces no
finalize event, no onset notification and no buffered audio: the whole
trace is a no-op on the fresh speaker state and emits no events. -/
theorem c6_no_spurious (inps : List Inp)
    (h : ∀ pcm now, Inp.frame pcm now ∈ inps →
      isSpeechFrame (downsampleFrame pcm) = false) :
    run initSpeaker inps = (initSpeaker, []) :=
  run_idle_aux inps h

/-- Witness for C6 with a concrete silent frame and a scan. -/
theorem c6_no_spurious_witness :
    run initSpeaker [Inp.frame [0, 0, 0, 0, 0, 0] 0, Inp.scan 800] = (initSpeaker, []) :=
  c6_no_spurious [Inp.frame [0, 0, 0, 0, 0, 0] 0, Inp.scan 800] (by
    intro pcm now hm
    simp only [List.mem_cons, List.not_mem_nil, or_false] at hm
    rcases hm with hm | hm
    · rw [Inp.frame.injEq] at hm
      rcases hm with ⟨rfl, rfl⟩
      rfl
    · exact Inp.noConfusion hm)

/-- C7: after a finalizing watchdog pass, any further trace of watchdog
passes and non-speech frames — everything that can happen before the next
speech frame — changes nothing for that speaker and emits no further
events. -/
theorem c7_idempotent_silence (s : SpeakerState) (t : Nat) (ts : List Inp)
    (hfin : (watchdog_scan s t).2 ≠ [])
    (hq : ∀ pcm now, Inp.frame pcm now ∈ ts →
      isSpeechFrame (downsampleFrame pcm) = false) :
    run (watchdog_scan s t).1 ts = ((watchdog_scan s t).1, []) := by
  rw [finalize_resets s t hfin]
  exact run_idle_aux ts hq

/-- Witness for C7 at a concrete finalizing state followed by two scans. -/
theorem c7_idempotent_silence_witness :
    run (watchdog_scan ⟨true, some 0, [1000]⟩ 800).1 [Inp.scan 1000, Inp.scan 1200] =
      ((watchdog_scan ⟨true, some 0, [1000]⟩ 800).1, []) :=
  c7_idempotent_silence ⟨true, some 0, [1000]⟩ 800 [Inp.scan 1000, Inp.scan 1200]
    (by decide) (by intro pcm now hm; simp at hm)

/-!
Claim C2: segmentation correctness.
-/

/-- Unfolding of one step of `run`. -/
theorem run_cons (s : SpeakerState) (i : Inp) (is : List Inp) :
    run s (i :: is) =
      ((run (step s i).1 is).1, (step s i).2 ++ (run (step s i).1 is).2) := by
  rcases h : step s i with ⟨s1, e1⟩
  rcases h2 : run s1 is with ⟨s2, e2⟩
  simp [run, h, h2]

/-- Running an appended trace runs the pieces in sequence and concatenates
their events. -/
theorem run_append (s : SpeakerState) (l1 l2 : List Inp) :
    run s (l1 ++ l2) =
      ((run (run s l1).1 l2).1, (run s l1).2 ++ (run (run s l1).1 l2).2) := by
  induction l1 generalizing s with
  | nil => simp [run]
  | cons i is ih =>
    simp only [List.cons_append, run_cons, ih]
    simp [List.append_assoc]

/-- Effect of one speech frame: the speaker is marked speaking, the
timestamp is stamped, the downsampled frame is appended, nothing is
emitted. -/
theorem handle_speech (s : SpeakerState) (pcm : List Int) (now : Nat)
    (h : isSpeechFrame (downsampleFrame pcm) = true) :
    handle_audio_sync s pcm now =
      (⟨true, some now, s.buffer ++ downsampleFrame pcm⟩, []) := by
  simp [handle_audio_sync, h]

/-- Effect of a run of speech frames ending with one at time `t`: the
speaker ends up speaking, stamped at `t`, with all downsampled audio
appended, and no events are emitted. -/
theorem run_speech_frames (l : List (List Int × Nat)) (p : List Int) (t : Nat)
    (s : SpeakerState)
    (h : ∀ pt ∈ l ++ [(p, t)], isSpeechFrame (downsampleFrame pt.1) = true) :
    run s (frameInps (l ++ [(p, t)])) =
      (⟨true, some t, s.buffer ++ inpAudio (frameInps (l ++ [(p, t)]))⟩, []) := by
  induction l generalizing s with
  | nil =>
    have h1 := h (p, t) (by simp)
    simp [frameInps, run_cons, run, step, inpAudio, handle_speech s p t h1]
  | cons pt l ih =>
    have h1 := h pt (by simp)
    have ih' := ih (⟨true, some pt.2, s.buffer ++ downsampleFrame pt.1⟩ : SpeakerState)
      (fun qt hq => h qt (by simp at hq ⊢; tauto))
    have hfi : frameInps ((pt :: l) ++ [(p, t)]) =
        Inp.frame pt.1 pt.2 :: frameInps (l ++ [(p, t)]) := by
      simp [frameInps]
    have hstep : step s (Inp.frame pt.1 pt.2) =
        (⟨true, some pt.2, s.buffer ++ downsampleFrame pt.1⟩, []) :=
      handle_speech s pt.1 pt.2 h1
    rw [hfi, run_cons]
    simp only [hstep, ih']
    simp [inpAudio, List.append_assoc]

/-- Effect of a quiet stretch on a speaking speaker whose last speech was
at `t1`: low-energy frames are appended anyway, `lastSpeechTime` is not
updated, the speaking flag stays set, sub-threshold watchdog passes change
nothing, and no events are emitted. -/
theorem run_quiet (b : List Inp) (s : SpeakerState) (t1 : Nat)
    (hs : s.speaking = true) (hl : s.lastSpeech = some t1)
    (h : ∀ i ∈ b, quietInput t1 i) :
    run s b = (⟨true, some t1, s.buffer ++ inpAudio b⟩, []) := by
  induction b generalizing s with
  | nil =>
    rcases s with ⟨sp, ls, buf⟩
    simp only at hs hl
    subst hs hl
    simp [run, inpAudio]
  | cons i is ih =>
    rcases i with ⟨pcm, now⟩ | u
    · have hq : isSpeechFrame (downsampleFrame pcm) = false :=
        h (Inp.frame pcm now) (List.mem_cons_self _ _)
      have hstep : step s (Inp.frame pcm now) =
          ({ s with buffer := s.buffer ++ downsampleFrame pcm }, []) := by
        simp [step, handle_audio_sync, hq, hs]
      have ih' := ih ({ s with buffer := s.buffer ++ downsampleFrame pcm } : SpeakerState)
        (by simpa using hs) (by simpa using hl)
        (fun j hj => h j (List.mem_cons_of_mem _ hj))
      rw [run_cons]
      simp only [hstep, ih']
      simp [inpAudio, List.append_assoc]
    · have hq : u - t1 < SILENCE_THRESHOLD_MS :=
        h (Inp.scan u) (List.mem_cons_self _ _)
      have hstep : step s (Inp.scan u) = (s, []) := by
        simp only [step, watchdog_scan, hl]
        rw [if_neg (by intro hcon; exact absurd hcon.2 (by omega))]
      have ih' := ih s hs hl (fun j hj => h j (List.mem_cons_of_mem _ hj))
      rw [run_cons]
      simp only [hstep, ih']
      simp [inpAudio]

/-- C2: in a trace of an initial burst of speech frames (the last one at
time `t1`), a quiet dip (non-speech frames and sub-threshold watchdog
passes), resumed speech frames (the last one at `t3`), a further quiet
stretch, and finally a watchdog pass with at least the silence threshold
elapsed since `t3`, exactly one finalize fires — the event list is exactly
one offset notification plus one completed utterance — and the finalized
buffer is the concatenation of every frame delivered from the first
speech frame through the last frame before finalization, the low-energy
dip frames included; moreover the dip leaves `lastSpeechTime` at `t1`,
the time of the last speech frame before it. -/
theorem c2_segmentation
    (a : List (List Int × Nat)) (p1 : List Int) (t1 : Nat)
    (b : List Inp)
    (c : List (List Int × Nat)) (p3 : List Int) (t3 : Nat)
    (d : List Inp) (bigT : Nat)
    (ha : ∀ pt ∈ a ++ [(p1, t1)], isSpeechFrame (downsampleFrame pt.1) = true)
    (hb : ∀ i ∈ b, quietInput t1 i)
    (hc : ∀ pt ∈ c ++ [(p3, t3)], isSpeechFrame (downsampleFrame pt.1) = true)
    (hd : ∀ i ∈ d, quietInput t3 i)
    (hT : SILENCE_THRESHOLD_MS ≤ bigT - t3) :
    (run initSpeaker (frameInps (a ++ [(p1, t1)]) ++ b)).1.lastSpeech = some t1 ∧
    run initSpeaker
        (frameInps (a ++ [(p1, t1)]) ++ b ++ frameInps (c ++ [(p3, t3)]) ++ d ++
          [Inp.scan bigT]) =
      (initSpeaker,
        [Ev.voiceActivity false,
          Ev.transcriptReady
            (inpAudio (frameInps (a ++ [(p1, t1)])) ++ inpAudio b ++
              inpAudio (frameInps (c ++ [(p3, t3)])) ++ inpAudio d)]) := by
  have hA' : run initSpeaker (frameInps (a ++ [(p1, t1)])) =
      (⟨true, some t1, inpAudio (frameInps (a ++ [(p1, t1)]))⟩, []) := by
    simpa [initSpeaker] using run_speech_frames a p1 t1 initSpeaker ha
  have hB := run_quiet b
    (⟨true, some t1, inpAudio (frameInps (a ++ [(p1, t1)]))⟩ : SpeakerState) t1 rfl rfl hb
  have hAB : run initSpeaker (frameInps (a ++ [(p1, t1)]) ++ b) =
      (⟨true, some t1, inpAudio (frameInps (a ++ [(p1, t1)])) ++ inpAudio b⟩, []) := by
    rw [run_append, hA']
    simp [hB]
  refine ⟨by rw [hAB], ?_⟩
  have hC := run_speech_frames c p3 t3
    (⟨true, some t1, inpAudio (frameInps (a ++ [(p1, t1)])) ++ inpAudio b⟩ : SpeakerState) hc
  have hABC : run initSpeaker
      (frameInps (a ++ [(p1, t1)]) ++ b ++ frameInps (c ++ [(p3, t3)])) =
      (⟨true, some t3,
        inpAudio (frameInps (a ++ [(p1, t1)])) ++ inpAudio b ++
          inpAudio (frameInps (c ++ [(p3, t3)]))⟩, []) := by
    rw [run_append, hAB]
    simp [hC, List.append_assoc]
  have hD := run_quiet d
    (⟨true, some t3,
      inpAudio (frameInps (a ++ [(p1, t1)])) ++ inpAudio b ++
        inpAudio (frameInps (c ++ [(p3, t3)]))⟩ : SpeakerState) t3 rfl rfl hd
  have hABCD : run initSpeaker
      (frameInps (a ++ [(p1, t1)]) ++ b ++ frameInps (c ++ [(p3, t3)]) ++ d) =
      (⟨true, some t3,
        inpAudio (frameInps (a ++ [(p1, t1)])) ++ inpAudio b ++
          inpAudio (frameInps (c ++ [(p3, t3)])) ++ inpAudio d⟩, []) := by
    rw [run_append, hABC]
    dsimp only
    rw [hD]
    simp
  have hbufne : inpAudio (frameInps (a ++ [(p1, t1)])) ++ inpAudio b ++
      inpAudio (frameInps (c ++ [(p3, t3)])) ++ inpAudio d ≠ [] := by
    have hp3 : downsampleFrame p3 ≠ [] :=
      ne_nil_of_isSpeech _ (hc (p3, t3) (by simp))
    have hC3 : inpAudio (frameInps (c ++ [(p3, t3)])) ≠ [] := by
      intro hx
      apply hp3
      simp only [inpAudio, frameInps, List.map_append, List.flatMap_append] at hx
      rcases List.append_eq_nil.mp hx with ⟨-, h2⟩
      simpa using h2
    simp only [ne_eq, List.append_eq_nil, not_and]
    tauto
  have hscan : watchdog_scan
      (⟨true, some t3,
        inpAudio (frameInps (a ++ [(p1, t1)])) ++ inpAudio b ++
          inpAudio (frameInps (c ++ [(p3, t3)])) ++ inpAudio d⟩ : SpeakerState) bigT =
      (initSpeaker,
        [Ev.voiceActivity false,
          Ev.transcriptReady
            (inpAudio (frameInps (a ++ [(p1, t1)])) ++ inpAudio b ++
              inpAudio (frameInps (c ++ [(p3, t3)])) ++ inpAudio d)]) := by
    simp only [watchdog_scan]
    rw [if_pos ⟨hbufne, hT⟩]
    simp [initSpeaker]
  rw [run_append, hABCD]
  dsimp only
  rw [run_cons]
  dsimp only [step]
  rw [hscan]
  simp [run]

/-- The concrete silent frame `[0, 0]` classifies as non-speech. -/
theorem isSpeech_zero2 : isSpeechFrame (downsampleFrame [0, 0]) = false := rfl

/-- Witness for C2 with one speech frame, a dip of one silent frame and one
early watchdog pass, one resumed speech frame, and a final stale pass. -/
theorem c2_segmentation_witness :
    (run initSpeaker (frameInps ([] ++ [(speechFrame48, 0)]) ++
        [Inp.frame [0, 0] 100, Inp.scan 400])).1.lastSpeech = some 0 ∧
    run initSpeaker
        (frameInps ([] ++ [(speechFrame48, 0)]) ++ [Inp.frame [0, 0] 100, Inp.scan 400] ++
          frameInps ([] ++ [(speechFrame48, 500)]) ++ [] ++ [Inp.scan 1300]) =
      (initSpeaker,
        [Ev.voiceActivity false,
          Ev.transcriptReady
            (inpAudio (frameInps ([] ++ [(speechFrame48, 0)])) ++
              inpAudio [Inp.frame [0, 0] 100, Inp.scan 400] ++
              inpAudio (frameInps ([] ++ [(speechFrame48, 500)])) ++ inpAudio [])]) := by
  refine c2_segmentation [] speechFrame48 0 [Inp.frame [0, 0] 100, Inp.scan 400]
    [] speechFrame48 500 [] 1300 ?_ ?_ ?_ ?_ (by decide)
  · intro pt hpt
    simp only [List.nil_append, List.mem_singleton] at hpt
    subst hpt
    exact isSpeech_speechFrame48
  · intro i hi
    simp only [List.mem_cons, List.not_mem_nil, or_false] at hi
    rcases hi with rfl | rfl
    · exact isSpeech_zero2
    · exact (by decide : (400 : Nat) - 0 < SILENCE_THRESHOLD_MS)
  · intro pt hpt
    simp only [List.nil_append, List.mem_singleton] at hpt
    subst hpt
    exact isSpeech_speechFrame48
  · intro i hi
    simp at hi

/-!
Claim C3: resampler state across chunks.
-/

/-- First ingestion step of `ratecvGo` at the reduced 48 kHz → 16 kHz rates
(3 : 1) from fractional position -1: one output sample is emitted, and it
equals the current input sample exactly, because the interpolation weight
of the previous sample is `d = 0`. -/
theorem ratecvGo31_stepA (x : Int) (xs : List Int) (p c : Int) :
    ratecvGo 3 1 (x :: xs) ⟨-1, p, c⟩ =
      (x :: (ratecvGo 3 1 xs ⟨-3, c, x⟩).1, (ratecvGo 3 1 xs ⟨-3, c, x⟩).2) := by
  rw [ratecvGo]
  norm_num [emitGo]

/-- Second ingestion step at rates 3 : 1: the sample is consumed without
emitting. -/
theorem ratecvGo31_stepB (y : Int) (ys : List Int) (p c : Int) :
    ratecvGo 3 1 (y :: ys) ⟨-3, p, c⟩ = ratecvGo 3 1 ys ⟨-2, c, y⟩ := by
  rw [ratecvGo]
  norm_num

/-- Third ingestion step at rates 3 : 1: the sample is consumed without
emitting, returning to fractional position -1. -/
theorem ratecvGo31_stepC (z : Int) (zs : List Int) (p c : Int) :
    ratecvGo 3 1 (z :: zs) ⟨-2, p, c⟩ = ratecvGo 3 1 zs ⟨-1, c, z⟩ := by
  rw [ratecvGo]
  norm_num

/-- At fractional position -1 the interpolation samples of the filter state
do not influence the output (the next emission has zero weight on the
previous sample). -/
theorem ratecvGo31_fresh_indep (l : List Int) (p c p' c' : Int) :
    (ratecvGo 3 1 l ⟨-1, p, c⟩).1 = (ratecvGo 3 1 l ⟨-1, p', c'⟩).1 := by
  rcases l with _ | ⟨x, _ | ⟨y, rest⟩⟩
  · rfl
  · rw [ratecvGo31_stepA, ratecvGo31_stepA]
    simp [ratecvGo]
  · simp [ratecvGo31_stepA, ratecvGo31_stepB]

/-- Three samples at rates 3 : 1 from position -1 produce exactly the first
of them and return to position -1. -/
theorem ratecvGo31_three (x y z : Int) (tl : List Int) (p c : Int) :
    (ratecvGo 3 1 (x :: y :: z :: tl) ⟨-1, p, c⟩).1 =
      x :: (ratecvGo 3 1 tl ⟨-1, y, z⟩).1 := by
  simp [ratecvGo31_stepA, ratecvGo31_stepB, ratecvGo31_stepC]

/-- Splitting a stream after a multiple of three samples and restarting
from the fresh state produces the same 3 : 1 output as the unsplit run. -/
theorem ratecvGo31_append (n : Nat) : ∀ l1 l2 : List Int, l1.length = 3 * n →
    (ratecvGo 3 1 (l1 ++ l2) ⟨-1, 0, 0⟩).1 =
      (ratecvGo 3 1 l1 ⟨-1, 0, 0⟩).1 ++ (ratecvGo 3 1 l2 ⟨-1, 0, 0⟩).1 := by
  induction n with
  | zero =>
    intro l1 l2 h
    have h0 : l1 = [] := List.length_eq_zero.mp (by omega)
    subst h0
    simp [ratecvGo]
  | succ n ih =>
    intro l1 l2 h
    rcases l1 with _ | ⟨x, _ | ⟨y, _ | ⟨z, tl⟩⟩⟩
    · simp only [List.length_nil] at h; omega
    · simp only [List.length_cons, List.length_nil] at h; omega
    · simp only [List.length_cons, List.length_nil] at h; omega
    · have htl : tl.length = 3 * n := by
        simp only [List.length_cons] at h; omega
      simp only [List.cons_append]
      rw [ratecvGo31_three, ratecvGo31_three,
        ratecvGo31_fresh_indep (tl ++ l2) y z 0 0,
        ratecvGo31_fresh_indep tl y z 0 0, ih tl l2 htl]
      simp

/-- The 48 kHz → 16 kHz call of `_handle_audio_sync` reduces to the 3 : 1
loop from the fresh `None` state. -/
theorem ratecv_48_16_eq (l : List Int) :
    ratecv 48000 16000 l none = ratecvGo 3 1 l ⟨-1, 0, 0⟩ := rfl

/-- C3 counterexample: the sidecar calls `audioop.ratecv` with a fresh
`None` filter state on every chunk, so downsampling the 4-sample stream
`[0, 0, 100, 200]` split as `[0, 0]` and `[100, 200]` yields `[0, 100]`,
while the single unsplit call yields `[0, 200]` — the second output sample
differs by 100, far beyond rounding tolerance. -/
theorem c3_counterexample :
    (ratecv 48000 16000 [0, 0] none).1 ++ (ratecv 48000 16000 [100, 200] none).1 =
      [0, 100] ∧
    (ratecv 48000 16000 ([0, 0] ++ [100, 200]) none).1 = [0, 200] ∧
    (ratecv 48000 16000 [0, 0] none).1 ++ (ratecv 48000 16000 [100, 200] none).1 ≠
      (ratecv 48000 16000 ([0, 0] ++ [100, 200]) none).1 :=
  ⟨rfl, rfl, by decide⟩

/-- C3 amended: the resampler state does not persist — every call passes
`None` — so chunked downsampling agrees with the unsplit call only when
the split point is a multiple of the 3 : 1 decimation ratio; at such split
points the discarded state happens to be immaterial, and in general (see
the counterexample) the outputs differ at the chunk boundary. -/
theorem c3_amended (l1 l2 : List Int) (h : l1.length % 3 = 0) :
    (ratecv 48000 16000 (l1 ++ l2) none).1 =
      (ratecv 48000 16000 l1 none).1 ++ (ratecv 48000 16000 l2 none).1 := by
  obtain ⟨n, hn⟩ : ∃ n, l1.length = 3 * n := ⟨l1.length / 3, by omega⟩
  rw [ratecv_48_16_eq, ratecv_48_16_eq, ratecv_48_16_eq]
  exact ratecvGo31_append n l1 l2 hn

/-- Witness for the amended C3 at a concrete multiple-of-three split. -/
theorem c3_amended_witness :
    (ratecv 48000 16000 ([7, 8, 9] ++ [10]) none).1 =
      (ratecv 48000 16000 [7, 8, 9] none).1 ++ (ratecv 48000 16000 [10] none).1 :=
  c3_amended [7, 8, 9] [10] (by decide)

/-!
Claim C4: playback while already playing.
-/

/-- C4 counterexample: `play_pcm` on a session whose voice client is
already playing does not stop the existing playback first — the
underlying `play` call fails with `ClientException("Already playing
audio")`, no new source starts, and the old playback keeps running. -/
theorem c4_counterexample :
    (play_pcm ⟨true, true, true⟩ [0] 16000).2.1 = .error "Already playing audio" ∧
    (play_pcm ⟨true, true, true⟩ [0] 16000).2.2 = none ∧
    (play_pcm ⟨true, true, true⟩ [0] 16000).1.vcPlaying = true := by
  refine ⟨rfl, rfl, rfl⟩

/-- C4 amended: `play_pcm` never stops or queues anything.  Called on a
joined session while the voice client is already playing, the underlying
`play` call fails (`ClientException`), no new source is started and the
in-flight playback continues; called while idle it starts the new source
immediately. -/
theorem c4_amended (s : PlaybackState) (pcm : List Int) (sr : Nat)
    (hc : s.connected = true) :
    (s.vcPlaying = true →
      (play_pcm s pcm sr).2.1 = .error "Already playing audio" ∧
      (play_pcm s pcm sr).2.2 = none ∧
      (play_pcm s pcm sr).1.vcPlaying = true) ∧
    (s.vcPlaying = false →
      (play_pcm s pcm sr).2.1 = .ok () ∧
      (play_pcm s pcm sr).1.vcPlaying = true ∧
      (play_pcm s pcm sr).1.isPlaying = true) := by
  constructor
  · intro hp
    simp [play_pcm, vcPlay, hc, hp]
  · intro hp
    simp [play_pcm, vcPlay, hc, hp]

/-- Witness for the amended C4 at concrete busy and idle sessions. -/
theorem c4_amended_witness :
    ((true : Bool) = true →
      (play_pcm ⟨true, true, false⟩ [5] 24000).2.1 = .error "Already playing audio" ∧
      (play_pcm ⟨true, true, false⟩ [5] 24000).2.2 = none ∧
      (play_pcm ⟨true, true, false⟩ [5] 24000).1.vcPlaying = true) ∧
    ((true : Bool) = false →
      (play_pcm ⟨true, true, false⟩ [5] 24000).2.1 = .ok () ∧
      (play_pcm ⟨true, true, false⟩ [5] 24000).1.vcPlaying = true ∧
      (play_pcm ⟨true, true, false⟩ [5] 24000).1.isPlaying = true) :=
  c4_amended ⟨true, true, false⟩ [5] 24000 rfl

/-!
Claim C10: join failure leaves the registry unchanged.
-/

/-- C10: when the guild or voice-channel lookup fails or connecting (or
starting the listener) raises, `join` leaves the registry unchanged and
its last reported state change is an error; the session is inserted into
the registry exactly in the case in which the lookups succeed and both the
connection and the listener were established. -/
theorem c10_join_failure (env : JoinEnv) (reg : Registry) (sid : String)
    (gid cid : Nat)
    (hfail : env.guildFound = false ∨ env.channelFound = false ∨
      env.channelIsVoice = false ∨ (∃ e, env.connectRes = .error e) ∨
      (∃ e, env.listenRes = .error e)) :
    (join env reg sid gid cid).1 = reg ∧
    (∃ r, (join env reg sid gid cid).2.getLast? = some (VState.error r)) ∧
    (∀ env' : JoinEnv, env'.guildFound = true → env'.channelFound = true →
      env'.channelIsVoice = true → env'.connectRes = .ok () →
      env'.listenRes = .ok () →
      (join env' reg sid gid cid).1 = regInsert reg sid ⟨gid, cid⟩) := by
  refine ⟨?_, ?_, ?_⟩
  · by_cases hg : env.guildFound = true
    · by_cases hch : env.channelFound = true ∧ env.channelIsVoice = true
      · rcases hfail with h | h | h | ⟨e, h⟩ | ⟨e, h⟩
        · rw [hg] at h; exact absurd h (by simp)
        · rw [hch.1] at h; exact absurd h (by simp)
        · rw [hch.2] at h; exact absurd h (by simp)
        · simp [join, hg, hch.1, hch.2, h]
        · cases hcr : env.connectRes with
          | error e2 => simp [join, hg, hch.1, hch.2, hcr]
          | ok u => simp [join, hg, hch.1, hch.2, hcr, h]
      · have : ¬(env.channelFound ∧ env.channelIsVoice) := by
          intro hcon; exact hch ⟨hcon.1, hcon.2⟩
        simp [join, hg, this]
    · have : env.guildFound = false := by
        cases h : env.guildFound
        · rfl
        · exact absurd h hg
      simp [join, this]
  · by_cases hg : env.guildFound = true
    · by_cases hch : env.channelFound = true ∧ env.channelIsVoice = true
      · rcases hfail with h | h | h | ⟨e, h⟩ | ⟨e, h⟩
        · rw [hg] at h; exact absurd h (by simp)
        · rw [hch.1] at h; exact absurd h (by simp)
        · rw [hch.2] at h; exact absurd h (by simp)
        · exact ⟨.exc e, by simp [join, hg, hch.1, hch.2, h]⟩
        · cases hcr : env.connectRes with
          | error e2 => exact ⟨.exc e2, by simp [join, hg, hch.1, hch.2, hcr]⟩
          | ok u => exact ⟨.exc e, by simp [join, hg, hch.1, hch.2, hcr, h]⟩
      · have hch' : ¬(env.channelFound ∧ env.channelIsVoice) := by
          intro hcon; exact hch ⟨hcon.1, hcon.2⟩
        exact ⟨.channelNotFound cid, by simp [join, hg, hch']⟩
    · have hg' : env.guildFound = false := by
        cases h : env.guildFound
        · rfl
        · exact absurd h hg
      exact ⟨.guildNotFound gid, by simp [join, hg']⟩
  · intro env' h1 h2 h3 h4 h5
    simp [join, h1, h2, h3, h4, h5]

/-- Witness for C10 at a concrete failing environment (guild missing). -/
theorem c10_join_failure_witness :
    (join ⟨false, true, true, .ok (), .ok ()⟩ [] "s1" 7 9).1 = [] ∧
    (∃ r, (join ⟨false, true, true, .ok (), .ok ()⟩ [] "s1" 7 9).2.getLast? =
      some (VState.error r)) ∧
    (∀ env' : JoinEnv, env'.guildFound = true → env'.channelFound = true →
      env'.channelIsVoice = true → env'.connectRes = .ok () →
      env'.listenRes = .ok () →
      (join env' [] "s1" 7 9).1 = regInsert [] "s1" ⟨7, 9⟩) :=
  c10_join_failure ⟨false, true, true, .ok (), .ok ()⟩ [] "s1" 7 9 (Or.inl rfl)

/-!
Claim C8: the wire round trip.
-/

/-! Digit lemmas -/

theorem natDigitsGo_mem : ∀ fuel n c, c ∈ natDigitsGo fuel n → 48 ≤ c ∧ c ≤ 57 := by
  intro fuel
  induction fuel with
  | zero => intro n c h; simp [natDigitsGo] at h
  | succ f ih =>
    intro n c h
    by_cases hn : n = 0
    · simp [natDigitsGo, hn] at h
    · simp only [natDigitsGo, if_neg hn, List.mem_append, List.mem_singleton] at h
      rcases h with h | h
      · exact ih _ _ h
      · subst h
        have := Nat.mod_lt n (show 0 < 10 by omega)
        omega

theorem natToDec_mem (n c : Nat) (h : c ∈ natToDec n) : 48 ≤ c ∧ c ≤ 57 := by
  unfold natToDec at h
  by_cases hn : n = 0
  · simp [hn] at h
    omega
  · rw [if_neg hn] at h
    exact natDigitsGo_mem n n c h

theorem natDigitsGo_ne_nil (fuel n : Nat) (hf : 1 ≤ fuel) (hn : 1 ≤ n) :
    natDigitsGo fuel n ≠ [] := by
  rcases fuel with _ | f
  · omega
  · simp [natDigitsGo, show n ≠ 0 by omega]

theorem natToDec_shape (n : Nat) :
    ∃ d ds, natToDec n = d :: ds ∧ 48 ≤ d ∧ d ≤ 57 := by
  rcases hs : natToDec n with _ | ⟨d, ds⟩
  · exfalso
    unfold natToDec at hs
    by_cases hn : n = 0
    · simp [hn] at hs
    · rw [if_neg hn] at hs
      exact natDigitsGo_ne_nil n n (by omega) (by omega) hs
  · have hd := natToDec_mem n d (by rw [hs]; exact List.mem_cons_self _ _)
    exact ⟨d, ds, rfl, hd.1, hd.2⟩

theorem natDigitsGo_foldl : ∀ fuel n acc, n ≤ fuel →
    (natDigitsGo fuel n).foldl (fun a c => a * 10 + (c - 48)) acc =
      acc * 10 ^ (natDigitsGo fuel n).length + n := by
  intro fuel
  induction fuel with
  | zero => intro n acc h; simp [natDigitsGo]; omega
  | succ f ih =>
    intro n acc h
    by_cases hn : n = 0
    · simp [natDigitsGo, hn]
    · have hle : n / 10 ≤ f := by omega
      simp only [natDigitsGo, if_neg hn, List.foldl_append, List.foldl_cons,
        List.foldl_nil, List.length_append, List.length_singleton]
      rw [ih (n / 10) acc hle]
      have hmod : n % 10 + 48 - 48 = n % 10 := by omega
      rw [hmod]
      rw [pow_succ]
      have hdm : 10 * (n / 10) + n % 10 = n := Nat.div_add_mod n 10
      ring_nf
      omega

theorem natToDec_foldl (n acc : Nat) :
    (natToDec n).foldl (fun a c => a * 10 + (c - 48)) acc =
      acc * 10 ^ (natToDec n).length + n := by
  unfold natToDec
  by_cases hn : n = 0
  · simp [hn]
  · rw [if_neg hn]
    exact natDigitsGo_foldl n n acc le_rfl

theorem parseDigits_spec : ∀ ds acc rest, (∀ c ∈ ds, 48 ≤ c ∧ c ≤ 57) →
    Bnd rest →
    parseDigits acc (ds ++ rest) =
      (ds.foldl (fun a c => a * 10 + (c - 48)) acc, rest) := by
  intro ds
  induction ds with
  | nil =>
    intro acc rest hds hb
    rcases hb with rfl | ⟨c, t, rfl, hc⟩
    · rfl
    · simp only [List.nil_append, List.foldl_nil, parseDigits]
      rw [if_neg (by omega)]
  | cons d ds ih =>
    intro acc rest hds hb
    have hd := hds d (List.mem_cons_self _ _)
    simp only [List.cons_append, parseDigits, List.foldl_cons]
    rw [if_pos hd]
    exact ih _ rest (fun c hc => hds c (List.mem_cons_of_mem _ hc)) hb

/-! String lemmas -/

theorem parseHex_hexDigit (v : Nat) (h : v < 16) : parseHex (hexDigit v) = some v := by
  interval_cases v <;> decide

theorem parseStrGo_round : ∀ fuel s rest, (s.flatMap escapeCp).length + 1 ≤ fuel →
    wfStr s →
    parseStrGo fuel (s.flatMap escapeCp ++ 34 :: rest) = some (s, rest) := by
  intro fuel
  induction fuel with
  | zero => intro s rest h hwf; omega
  | succ f ih =>
    intro s rest hlen hwf
    cases s with
    | nil => simp [parseStrGo]
    | cons c s =>
      have hc := hwf c (List.mem_cons_self _ _)
      have hwf' : wfStr s := fun x hx => hwf x (List.mem_cons_of_mem _ hx)
      simp only [List.flatMap_cons, List.length_append] at hlen ⊢
      rw [List.append_assoc]
      by_cases h34 : c = 34
      · subst h34
        have he : escapeCp 34 = [92, 34] := rfl
        rw [he]
        have ih' := ih s rest (by rw [he] at hlen; simp only [List.length_cons, List.length_nil] at hlen; omega) hwf'
        simp [parseStrGo, readEscape, unescape, ih']
      · by_cases h92 : c = 92
        · subst h92
          have he : escapeCp 92 = [92, 92] := rfl
          rw [he]
          have ih' := ih s rest (by rw [he] at hlen; simp only [List.length_cons, List.length_nil] at hlen; omega) hwf'
          simp [parseStrGo, readEscape, unescape, ih']
        · by_cases hctl : c < 32
          · by_cases h8 : c = 8
            · subst h8
              have he : escapeCp 8 = [92, 98] := rfl
              rw [he]
              have ih' := ih s rest (by rw [he] at hlen; simp only [List.length_cons, List.length_nil] at hlen; omega) hwf'
              simp [parseStrGo, readEscape, unescape, ih']
            · by_cases h9 : c = 9
              · subst h9
                have he : escapeCp 9 = [92, 116] := rfl
                rw [he]
                have ih' := ih s rest (by rw [he] at hlen; simp only [List.length_cons, List.length_nil] at hlen; omega) hwf'
                simp [parseStrGo, readEscape, unescape, ih']
              · by_cases h10 : c = 10
                · subst h10
                  have he : escapeCp 10 = [92, 110] := rfl
                  rw [he]
                  have ih' := ih s rest (by rw [he] at hlen; simp only [List.length_cons, List.length_nil] at hlen; omega) hwf'
                  simp [parseStrGo, readEscape, unescape, ih']
                · by_cases h12 : c = 12
                  · subst h12
                    have he : escapeCp 12 = [92, 102] := rfl
                    rw [he]
                    have ih' := ih s rest (by rw [he] at hlen; simp only [List.length_cons, List.length_nil] at hlen; omega) hwf'
                    simp [parseStrGo, readEscape, unescape, ih']
                  · by_cases h13 : c = 13
                    · subst h13
                      have he : escapeCp 13 = [92, 114] := rfl
                      rw [he]
                      have ih' := ih s rest (by rw [he] at hlen; simp only [List.length_cons, List.length_nil] at hlen; omega) hwf'
                      simp [parseStrGo, readEscape, unescape, ih']
                    · have he : escapeCp c =
                          [92, 117, 48, 48, hexDigit (c / 16), hexDigit (c % 16)] := by
                        simp [escapeCp, h34, h92, hctl, h8, h9, h10, h12, h13]
                      rw [he]
                      have ih' := ih s rest (by rw [he] at hlen; simp only [List.length_cons, List.length_nil] at hlen; omega) hwf'
                      have hx1 : parseHex (hexDigit (c / 16)) = some (c / 16) :=
                        parseHex_hexDigit _ (by omega)
                      have hx2 : parseHex (hexDigit (c % 16)) = some (c % 16) :=
                        parseHex_hexDigit _ (by omega)
                      have hd : parseHex 48 = some 0 := rfl
                      simp only [List.cons_append, List.nil_append, parseStrGo,
                        readEscape, readHex4, hd, hx1, hx2]
                      norm_num
                      rw [ih']
                      simp
                      omega
          · have he : escapeCp c = [c] := by simp [escapeCp, h34, h92, hctl]
            rw [he]
            have ih' := ih s rest (by rw [he] at hlen; simp only [List.length_cons, List.length_nil] at hlen; omega) hwf'
            simp only [List.cons_append, List.nil_append, parseStrGo]
            rw [if_neg h34, if_neg h92, ih']

theorem parseStr_round (s rest : List Nat) (hwf : wfStr s) :
    parseStr (s.flatMap escapeCp ++ 34 :: rest) = some (s, rest) := by
  unfold parseStr
  apply parseStrGo_round _ s rest _ hwf
  simp

/-! Character bounds of the serialization -/

theorem escapeCp_mem (x c : Nat) (hx : x < 1114112) (h : c ∈ escapeCp x) :
    c < 1114112 := by
  unfold escapeCp at h
  by_cases h34 : x = 34
  · simp [h34] at h; omega
  · rw [if_neg h34] at h
    by_cases h92 : x = 92
    · simp [h92] at h; omega
    · rw [if_neg h92] at h
      by_cases hctl : x < 32
      · rw [if_pos hctl] at h
        by_cases h8 : x = 8
        · simp [h8] at h; omega
        · rw [if_neg h8] at h
          by_cases h9 : x = 9
          · simp [h9] at h; omega
          · rw [if_neg h9] at h
            by_cases h10 : x = 10
            · simp [h10] at h; omega
            · rw [if_neg h10] at h
              by_cases h12 : x = 12
              · simp [h12] at h; omega
              · rw [if_neg h12] at h
                by_cases h13 : x = 13
                · simp [h13] at h; omega
                · rw [if_neg h13] at h
                  simp only [List.mem_cons, List.not_mem_nil, or_false] at h
                  rcases h with rfl | rfl | rfl | rfl | rfl | rfl
                  · omega
                  · omega
                  · omega
                  · omega
                  · unfold hexDigit; split <;> omega
                  · unfold hexDigit; split <;> omega
      · rw [if_neg hctl] at h
        simp only [List.mem_cons, List.not_mem_nil, or_false] at h
        subst h
        exact hx

theorem dumpStr_mem (str : List Nat) (c : Nat) (hwf : wfStr str)
    (h : c ∈ dumpStr str) : c < 1114112 := by
  unfold dumpStr at h
  rw [List.mem_append, List.mem_cons, List.mem_singleton] at h
  rcases h with (rfl | h) | rfl
  · omega
  · rw [List.mem_flatMap] at h
    obtain ⟨x, hx, hcx⟩ := h
    exact escapeCp_mem x c (hwf x hx).1 hcx
  · omega

theorem dumpInt_mem (n : Int) (c : Nat) (h : c ∈ dumpInt n) : c < 1114112 := by
  unfold dumpInt at h
  by_cases hn : n < 0
  · rw [if_pos hn] at h
    simp only [List.mem_cons] at h
    rcases h with rfl | h
    · omega
    · have := natToDec_mem _ _ h; omega
  · rw [if_neg hn] at h
    have := natToDec_mem _ _ h; omega

theorem mem_dumpElems : ∀ (xs : List JVal) (c : Nat), c ∈ dumpElems xs →
    c = 44 ∨ c = 32 ∨ ∃ x ∈ xs, c ∈ dumps x := by
  intro xs
  induction xs with
  | nil => intro c h; simp [dumpElems] at h
  | cons x ys ih =>
    intro c h
    cases ys with
    | nil =>
      right; right
      exact ⟨x, List.mem_cons_self _ _, by simpa [dumpElems] using h⟩
    | cons y ys' =>
      rw [show dumpElems (x :: y :: ys') = dumps x ++ 44 :: 32 :: dumpElems (y :: ys')
        from rfl] at h
      rw [List.mem_append, List.mem_cons, List.mem_cons] at h
      rcases h with h | rfl | rfl | h
      · exact Or.inr (Or.inr ⟨x, List.mem_cons_self _ _, h⟩)
      · exact Or.inl rfl
      · exact Or.inr (Or.inl rfl)
      · rcases ih c h with h' | h' | ⟨z, hz, hc⟩
        · exact Or.inl h'
        · exact Or.inr (Or.inl h')
        · exact Or.inr (Or.inr ⟨z, List.mem_cons_of_mem _ hz, hc⟩)

theorem mem_dumpMembers : ∀ (kvs : List (List Nat × JVal)) (c : Nat),
    c ∈ dumpMembers kvs →
    c = 44 ∨ c = 32 ∨ c = 58 ∨ (∃ kv ∈ kvs, c ∈ dumpStr kv.1) ∨
      ∃ kv ∈ kvs, c ∈ dumps kv.2 := by
  intro kvs
  induction kvs with
  | nil => intro c h; simp [dumpMembers] at h
  | cons kv kvs' ih =>
    intro c h
    cases kvs' with
    | nil =>
      rw [show dumpMembers [kv] = dumpStr kv.1 ++ 58 :: 32 :: dumps kv.2 from rfl] at h
      rw [List.mem_append, List.mem_cons, List.mem_cons] at h
      rcases h with h | rfl | rfl | h
      · exact Or.inr (Or.inr (Or.inr (Or.inl ⟨kv, List.mem_cons_self _ _, h⟩)))
      · exact Or.inr (Or.inr (Or.inl rfl))
      · exact Or.inr (Or.inl rfl)
      · exact Or.inr (Or.inr (Or.inr (Or.inr ⟨kv, List.mem_cons_self _ _, h⟩)))
    | cons kv2 kvs'' =>
      rw [show dumpMembers (kv :: kv2 :: kvs'') =
          dumpStr kv.1 ++ 58 :: 32 :: dumps kv.2 ++ 44 :: 32 :: dumpMembers (kv2 :: kvs'')
        from rfl] at h
      simp only [List.mem_append, List.mem_cons] at h
      rcases h with (h | rfl | rfl | h) | (rfl | rfl | h)
      · exact Or.inr (Or.inr (Or.inr (Or.inl ⟨kv, List.mem_cons_self _ _, h⟩)))
      · exact Or.inr (Or.inr (Or.inl rfl))
      · exact Or.inr (Or.inl rfl)
      · exact Or.inr (Or.inr (Or.inr (Or.inr ⟨kv, List.mem_cons_self _ _, h⟩)))
      · exact Or.inl rfl
      · exact Or.inr (Or.inl rfl)
      · rcases ih c h with h' | h' | h' | ⟨z, hz, hc⟩ | ⟨z, hz, hc⟩
        · exact Or.inl h'
        · exact Or.inr (Or.inl h')
        · exact Or.inr (Or.inr (Or.inl h'))
        · exact Or.inr (Or.inr (Or.inr (Or.inl ⟨z, List.mem_cons_of_mem _ hz, hc⟩)))
        · exact Or.inr (Or.inr (Or.inr (Or.inr ⟨z, List.mem_cons_of_mem _ hz, hc⟩)))

theorem dumps_mem_lt (v : JVal) (hwf : JWF v) : ∀ c ∈ dumps v, c < 1114112 := by
  induction hwf with
  | jnull => intro c h; simp [dumps] at h; omega
  | jbool b =>
    intro c h
    cases b <;> simp [dumps] at h <;> omega
  | jint n => intro c h; exact dumpInt_mem n c (by simpa [dumps] using h)
  | jstr s hs => intro c h; exact dumpStr_mem s c hs (by simpa [dumps] using h)
  | jarr xs hall ih =>
    intro c h
    rw [show dumps (.jarr xs) = 91 :: dumpElems xs ++ [93] from rfl] at h
    rw [List.mem_append, List.mem_cons, List.mem_singleton] at h
    rcases h with (rfl | h) | rfl
    · omega
    · rcases mem_dumpElems xs c h with rfl | rfl | ⟨x, hx, hc⟩
      · omega
      · omega
      · exact ih x hx c hc
    · omega
  | jobj kvs hk hv ih =>
    intro c h
    rw [show dumps (.jobj kvs) = 123 :: dumpMembers kvs ++ [125] from rfl] at h
    rw [List.mem_append, List.mem_cons, List.mem_singleton] at h
    rcases h with (rfl | h) | rfl
    · omega
    · rcases mem_dumpMembers kvs c h with rfl | rfl | rfl | ⟨kv, hkv, hc⟩ | ⟨kv, hkv, hc⟩
      · omega
      · omega
      · omega
      · exact dumpStr_mem kv.1 c (hk kv hkv) hc
      · exact ih kv hkv c hc
    · omega

/-! Head of a serialized value -/

theorem dumps_head (v : JVal) : ∃ h t, dumps v = h :: t ∧ h ≠ 93 := by
  cases v with
  | jnull => exact ⟨110, _, rfl, by omega⟩
  | jbool b =>
    cases b
    · exact ⟨102, _, rfl, by omega⟩
    · exact ⟨116, _, rfl, by omega⟩
  | jint n =>
    show ∃ h t, dumpInt n = h :: t ∧ h ≠ 93
    unfold dumpInt
    by_cases hn : n < 0
    · rw [if_pos hn]
      exact ⟨45, _, rfl, by omega⟩
    · rw [if_neg hn]
      obtain ⟨d, ds, hds, h1, h2⟩ := natToDec_shape n.toNat
      rw [hds]
      exact ⟨d, ds, rfl, by omega⟩
  | jstr str =>
    refine ⟨34, str.flatMap escapeCp ++ [34], ?_, by omega⟩
    show dumpStr str = _
    unfold dumpStr
    rw [List.cons_append]
  | jarr xs =>
    refine ⟨91, dumpElems xs ++ [93], ?_, by omega⟩
    show 91 :: dumpElems xs ++ [93] = _
    rw [List.cons_append]
  | jobj kvs =>
    refine ⟨123, dumpMembers kvs ++ [125], ?_, by omega⟩
    show 123 :: dumpMembers kvs ++ [125] = _
    rw [List.cons_append]

/-! UTF-8 round trip -/

theorem utf8_len_ge (s : List Nat) : s.length ≤ (utf8 s).length := by
  induction s with
  | nil => simp [utf8]
  | cons c t ih =>
    have h1 : 1 ≤ (utf8Cp c).length := by
      unfold utf8Cp
      split
      · simp
      · split
        · simp
        · split <;> simp
    show (c :: t).length ≤ (utf8Cp c ++ utf8 t).length
    rw [List.length_cons, List.length_append]
    omega

theorem utf8DecGo_round : ∀ fuel s, s.length ≤ fuel → (∀ c ∈ s, c < 1114112) →
    utf8DecGo fuel (utf8 s) = some s := by
  intro fuel
  induction fuel with
  | zero =>
    intro s h hc
    have h0 : s = [] := List.length_eq_zero.mp (by omega)
    subst h0
    rfl
  | succ f ih =>
    intro s hlen hc
    cases s with
    | nil => rfl
    | cons c t =>
      have hct := hc c (List.mem_cons_self _ _)
      have iht := ih t (by simp only [List.length_cons] at hlen; omega)
        (fun x hx => hc x (List.mem_cons_of_mem _ hx))
      show utf8DecGo (f + 1) (utf8Cp c ++ utf8 t) = some (c :: t)
      by_cases h1 : c < 128
      · rw [show utf8Cp c = [c] from by simp [utf8Cp, h1]]
        show utf8DecGo (f + 1) (c :: utf8 t) = some (c :: t)
        simp [utf8DecGo, h1, iht]
      · by_cases h2 : c < 2048
        · rw [show utf8Cp c = [192 + c / 64, 128 + c % 64] from by
            simp [utf8Cp, h1, h2]]
          show utf8DecGo (f + 1) ((192 + c / 64) :: (128 + c % 64) :: utf8 t) =
            some (c :: t)
          have e1 : ¬(192 + c / 64 < 128) := by omega
          have e2 : ¬(192 + c / 64 < 192) := by omega
          have e3 : 192 + c / 64 < 224 := by omega
          have e4 : 128 ≤ 128 + c % 64 ∧ 128 + c % 64 < 192 := by
            constructor <;> omega
          have hv : (192 + c / 64 - 192) * 64 + (128 + c % 64 - 128) = c := by omega
          simp [utf8DecGo, e1, e2, e3, e4, iht, hv]
          omega
        · by_cases h3 : c < 65536
          · rw [show utf8Cp c = [224 + c / 4096, 128 + c / 64 % 64, 128 + c % 64] from by
              simp [utf8Cp, h1, h2, h3]]
            show utf8DecGo (f + 1)
                ((224 + c / 4096) :: (128 + c / 64 % 64) :: (128 + c % 64) :: utf8 t) =
              some (c :: t)
            have e1 : ¬(224 + c / 4096 < 128) := by omega
            have e2 : ¬(224 + c / 4096 < 192) := by omega
            have e3 : ¬(224 + c / 4096 < 224) := by omega
            have e4 : 224 + c / 4096 < 240 := by omega
            have e5 : (128 ≤ 128 + c / 64 % 64 ∧ 128 + c / 64 % 64 < 192) ∧
                128 ≤ 128 + c % 64 ∧ 128 + c % 64 < 192 := by
              refine ⟨⟨?_, ?_⟩, ?_, ?_⟩ <;> omega
            have hv : ((224 + c / 4096 - 224) * 64 + (128 + c / 64 % 64 - 128)) * 64 +
                (128 + c % 64 - 128) = c := by omega
            simp [utf8DecGo, e1, e2, e3, e4, e5, iht, hv]
            omega
          · rw [show utf8Cp c =
                [240 + c / 262144, 128 + c / 4096 % 64, 128 + c / 64 % 64, 128 + c % 64]
              from by simp [utf8Cp, h1, h2, h3]]
            show utf8DecGo (f + 1)
                ((240 + c / 262144) :: (128 + c / 4096 % 64) :: (128 + c / 64 % 64) ::
                  (128 + c % 64) :: utf8 t) = some (c :: t)
            have e1 : ¬(240 + c / 262144 < 128) := by omega
            have e2 : ¬(240 + c / 262144 < 192) := by omega
            have e3 : ¬(240 + c / 262144 < 224) := by omega
            have e4 : ¬(240 + c / 262144 < 240) := by omega
            have e5 : 240 + c / 262144 < 248 := by omega
            have e6 : (128 ≤ 128 + c / 4096 % 64 ∧ 128 + c / 4096 % 64 < 192) ∧
                (128 ≤ 128 + c / 64 % 64 ∧ 128 + c / 64 % 64 < 192) ∧
                128 ≤ 128 + c % 64 ∧ 128 + c % 64 < 192 := by
              refine ⟨⟨?_, ?_⟩, ⟨?_, ?_⟩, ?_, ?_⟩ <;> omega
            have hv : (((240 + c / 262144 - 240) * 64 + (128 + c / 4096 % 64 - 128)) * 64 +
                (128 + c / 64 % 64 - 128)) * 64 + (128 + c % 64 - 128) = c := by omega
            simp [utf8DecGo, e1, e2, e3, e4, e5, e6, iht, hv]
            omega

theorem utf8Dec_round (s : List Nat) (hc : ∀ c ∈ s, c < 1114112) :
    utf8Dec (utf8 s) = some s :=
  utf8DecGo_round (utf8 s).length s (utf8_len_ge s) hc

/-! Parser round trip -/

theorem bnd_cons (c : Nat) (t : List Nat) (h : c = 44 ∨ c = 93 ∨ c = 125) :
    Bnd (c :: t) := Or.inr ⟨c, t, rfl, h⟩

theorem parse_round : ∀ fuel,
    (∀ v rest, JWF v → Bnd rest → (dumps v).length + 1 ≤ fuel →
      parseVal fuel (dumps v ++ rest) = some (v, rest)) ∧
    (∀ xs rest, xs ≠ [] → (∀ x ∈ xs, JWF x) → (dumpElems xs).length + 2 ≤ fuel →
      parseElems fuel (dumpElems xs ++ 93 :: rest) = some (xs, rest)) ∧
    (∀ kvs rest, kvs ≠ [] → (∀ kv ∈ kvs, wfStr kv.1) → (∀ kv ∈ kvs, JWF kv.2) →
      (dumpMembers kvs).length + 2 ≤ fuel →
      parseMembers fuel (dumpMembers kvs ++ 125 :: rest) = some (kvs, rest)) := by
  intro fuel
  induction fuel with
  | zero =>
    refine ⟨?_, ?_, ?_⟩
    · intro v rest _ _ hlen; omega
    · intro xs rest _ _ hlen; omega
    · intro kvs rest _ _ _ hlen; omega
  | succ f ih =>
    obtain ⟨ihV, ihE, ihM⟩ := ih
    refine ⟨?_, ?_, ?_⟩
    · -- parseVal
      intro v rest hwf hbnd hlen
      cases v with
      | jnull =>
        show parseVal (f + 1) (110 :: 117 :: 108 :: 108 :: rest) = some (.jnull, rest)
        simp [parseVal]
      | jbool b =>
        cases b
        · show parseVal (f + 1) (102 :: 97 :: 108 :: 115 :: 101 :: rest) =
            some (.jbool false, rest)
          simp [parseVal]
        · show parseVal (f + 1) (116 :: 114 :: 117 :: 101 :: rest) =
            some (.jbool true, rest)
          simp [parseVal]
      | jint n =>
        show parseVal (f + 1) (dumpInt n ++ rest) = some (.jint n, rest)
        by_cases hn : n < 0
        · rw [show dumpInt n = 45 :: natToDec n.natAbs from by
            unfold dumpInt; rw [if_pos hn]]
          obtain ⟨d, ds, hds, hd1, hd2⟩ := natToDec_shape n.natAbs
          rw [hds]
          have hdig : ∀ c ∈ ds, 48 ≤ c ∧ c ≤ 57 := fun c hc =>
            natToDec_mem n.natAbs c (by rw [hds]; exact List.mem_cons_of_mem _ hc)
          have hpd : parseDigits (d - 48) (ds ++ rest) =
              ((d :: ds).foldl (fun a c => a * 10 + (c - 48)) 0, rest) := by
            rw [List.foldl_cons]
            have h0 : (0 : Nat) * 10 + (d - 48) = d - 48 := by omega
            rw [h0]
            exact parseDigits_spec ds (d - 48) rest hdig hbnd
          have hval : (d :: ds).foldl (fun a c => a * 10 + (c - 48)) 0 = n.natAbs := by
            rw [← hds]
            have := natToDec_foldl n.natAbs 0
            simpa using this
          show parseVal (f + 1) (45 :: d :: (ds ++ rest)) = some (.jint n, rest)
          simp only [parseVal]
          rw [if_neg (by omega), if_neg (by omega), if_neg (by omega),
            if_neg (by omega), if_neg (by omega), if_neg (by omega)]
          rw [if_pos trivial, if_pos ⟨hd1, hd2⟩, hpd]
          simp only [hval, Option.some.injEq, Prod.mk.injEq, JVal.jint.injEq]
          exact ⟨by omega, trivial⟩
        · rw [show dumpInt n = natToDec n.toNat from by
            unfold dumpInt; rw [if_neg hn]]
          obtain ⟨d, ds, hds, hd1, hd2⟩ := natToDec_shape n.toNat
          rw [hds]
          have hdig : ∀ c ∈ ds, 48 ≤ c ∧ c ≤ 57 := fun c hc =>
            natToDec_mem n.toNat c (by rw [hds]; exact List.mem_cons_of_mem _ hc)
          have hpd : parseDigits (d - 48) (ds ++ rest) =
              ((d :: ds).foldl (fun a c => a * 10 + (c - 48)) 0, rest) := by
            rw [List.foldl_cons]
            have h0 : (0 : Nat) * 10 + (d - 48) = d - 48 := by omega
            rw [h0]
            exact parseDigits_spec ds (d - 48) rest hdig hbnd
          have hval : (d :: ds).foldl (fun a c => a * 10 + (c - 48)) 0 = n.toNat := by
            rw [← hds]
            have := natToDec_foldl n.toNat 0
            simpa using this
          show parseVal (f + 1) (d :: (ds ++ rest)) = some (.jint n, rest)
          simp only [parseVal]
          rw [if_neg (by omega), if_neg (by omega), if_neg (by omega),
            if_neg (by omega), if_neg (by omega), if_neg (by omega),
            if_neg (by omega), if_pos ⟨hd1, hd2⟩, hpd]
          simp only [hval, Option.some.injEq, Prod.mk.injEq, JVal.jint.injEq]
          exact ⟨by omega, trivial⟩
      | jstr str =>
        have hwfs : wfStr str := by cases hwf with | jstr _ h => exact h
        show parseVal (f + 1) (dumpStr str ++ rest) = some (.jstr str, rest)
        rw [show dumpStr str ++ rest = 34 :: (str.flatMap escapeCp ++ 34 :: rest) from by
          unfold dumpStr; simp [List.append_assoc]]
        have hps := parseStr_round str rest hwfs
        simp [parseVal, hps]
      | jarr xs =>
        have hall : ∀ x ∈ xs, JWF x := by cases hwf with | jarr _ h => exact h
        cases xs with
        | nil =>
          show parseVal (f + 1) (91 :: 93 :: rest) = some (.jarr [], rest)
          simp [parseVal]
        | cons x xs' =>
          obtain ⟨h0, t0, ht0, h93⟩ := dumps_head x
          have hE : ∃ E', dumpElems (x :: xs') = h0 :: E' := by
            cases xs' with
            | nil => exact ⟨t0, by rw [show dumpElems [x] = dumps x from rfl, ht0]⟩
            | cons y ys =>
              refine ⟨t0 ++ 44 :: 32 :: dumpElems (y :: ys), ?_⟩
              rw [show dumpElems (x :: y :: ys) =
                dumps x ++ 44 :: 32 :: dumpElems (y :: ys) from rfl, ht0]
              rw [List.cons_append]
          obtain ⟨E', hE'⟩ := hE
          show parseVal (f + 1)
            ((91 :: dumpElems (x :: xs') ++ [93]) ++ rest) = some (.jarr (x :: xs'), rest)
          rw [show (91 :: dumpElems (x :: xs') ++ [93]) ++ rest =
              91 :: (dumpElems (x :: xs') ++ 93 :: rest) from by
            simp [List.append_assoc]]
          have hpe : parseElems f (dumpElems (x :: xs') ++ 93 :: rest) =
              some (x :: xs', rest) := by
            apply ihE _ _ (by simp) hall
            have : (dumps (.jarr (x :: xs'))).length =
                (dumpElems (x :: xs')).length + 2 := by
              rw [show dumps (.jarr (x :: xs')) =
                91 :: dumpElems (x :: xs') ++ [93] from rfl]
              simp
            omega
          rw [hE']
          rw [show (91 : Nat) :: (h0 :: E' ++ 93 :: rest) =
            91 :: h0 :: (E' ++ 93 :: rest) from by simp]
          simp only [parseVal]
          norm_num
          rw [if_neg h93]
          rw [show (h0 :: (E' ++ 93 :: rest)) = dumpElems (x :: xs') ++ 93 :: rest from by
            rw [hE']; simp]
          rw [hpe]
      | jobj kvs =>
        have hk : ∀ kv ∈ kvs, wfStr kv.1 := by cases hwf with | jobj _ h _ => exact h
        have hv : ∀ kv ∈ kvs, JWF kv.2 := by cases hwf with | jobj _ _ h => exact h
        cases kvs with
        | nil =>
          show parseVal (f + 1) (123 :: 125 :: rest) = some (.jobj [], rest)
          simp [parseVal]
        | cons kv kvs' =>
          have hM : ∃ M', dumpMembers (kv :: kvs') = 34 :: M' := by
            cases kvs' with
            | nil =>
              refine ⟨kv.1.flatMap escapeCp ++ [34] ++ (58 :: 32 :: dumps kv.2), ?_⟩
              rw [show dumpMembers [kv] = dumpStr kv.1 ++ 58 :: 32 :: dumps kv.2 from rfl]
              unfold dumpStr
              simp [List.append_assoc]
            | cons kv2 kvs'' =>
              refine ⟨kv.1.flatMap escapeCp ++ [34] ++
                (58 :: 32 :: dumps kv.2 ++ 44 :: 32 :: dumpMembers (kv2 :: kvs'')), ?_⟩
              rw [show dumpMembers (kv :: kv2 :: kvs'') = dumpStr kv.1 ++
                58 :: 32 :: dumps kv.2 ++ 44 :: 32 :: dumpMembers (kv2 :: kvs'') from rfl]
              unfold dumpStr
              simp [List.append_assoc]
          obtain ⟨M', hM'⟩ := hM
          show parseVal (f + 1)
            ((123 :: dumpMembers (kv :: kvs') ++ [125]) ++ rest) =
            some (.jobj (kv :: kvs'), rest)
          rw [show (123 :: dumpMembers (kv :: kvs') ++ [125]) ++ rest =
              123 :: (dumpMembers (kv :: kvs') ++ 125 :: rest) from by
            simp [List.append_assoc]]
          have hpm : parseMembers f (dumpMembers (kv :: kvs') ++ 125 :: rest) =
              some (kv :: kvs', rest) := by
            apply ihM _ _ (by simp) hk hv
            have : (dumps (.jobj (kv :: kvs'))).length =
                (dumpMembers (kv :: kvs')).length + 2 := by
              rw [show dumps (.jobj (kv :: kvs')) =
                123 :: dumpMembers (kv :: kvs') ++ [125] from rfl]
              simp
            omega
          rw [hM']
          rw [show (123 : Nat) :: (34 :: M' ++ 125 :: rest) =
            123 :: 34 :: (M' ++ 125 :: rest) from by simp]
          simp only [parseVal]
          norm_num
          rw [show (34 :: (M' ++ 125 :: rest)) =
            dumpMembers (kv :: kvs') ++ 125 :: rest from by rw [hM']; simp]
          rw [hpm]
    · -- parseElems
      intro xs rest hne hall hlen
      cases xs with
      | nil => exact absurd rfl hne
      | cons x xs' =>
        cases xs' with
        | nil =>
          show parseElems (f + 1) (dumps x ++ 93 :: rest) = some ([x], rest)
          have hpv : parseVal f (dumps x ++ 93 :: rest) = some (x, 93 :: rest) := by
            apply ihV x _ (hall x (List.mem_cons_self _ _))
              (bnd_cons 93 rest (Or.inr (Or.inl rfl)))
            have : dumpElems [x] = dumps x := rfl
            rw [this] at hlen
            omega
          simp [parseElems, hpv]
        | cons y ys =>
          show parseElems (f + 1)
            ((dumps x ++ 44 :: 32 :: dumpElems (y :: ys)) ++ 93 :: rest) =
            some (x :: y :: ys, rest)
          rw [show (dumps x ++ 44 :: 32 :: dumpElems (y :: ys)) ++ 93 :: rest =
              dumps x ++ 44 :: 32 :: (dumpElems (y :: ys) ++ 93 :: rest) from by
            simp [List.append_assoc]]
          have hlen' : (dumps x).length + (dumpElems (y :: ys)).length + 4 ≤ f + 1 := by
            rw [show dumpElems (x :: y :: ys) =
              dumps x ++ 44 :: 32 :: dumpElems (y :: ys) from rfl] at hlen
            simp only [List.length_append, List.length_cons] at hlen
            omega
          have hpv : parseVal f (dumps x ++ 44 :: 32 :: (dumpElems (y :: ys) ++ 93 :: rest)) =
              some (x, 44 :: 32 :: (dumpElems (y :: ys) ++ 93 :: rest)) := by
            apply ihV x _ (hall x (List.mem_cons_self _ _))
              (bnd_cons 44 _ (Or.inl rfl))
            omega
          have hpe : parseElems f (dumpElems (y :: ys) ++ 93 :: rest) =
              some (y :: ys, rest) := by
            apply ihE _ _ (by simp) (fun z hz => hall z (List.mem_cons_of_mem _ hz))
            omega
          simp [parseElems, hpv, hpe]
    · -- parseMembers
      intro kvs rest hne hk hv hlen
      cases kvs with
      | nil => exact absurd rfl hne
      | cons kv kvs' =>
        have hwfk : wfStr kv.1 := hk kv (List.mem_cons_self _ _)
        have hwfv : JWF kv.2 := hv kv (List.mem_cons_self _ _)
        cases kvs' with
        | nil =>
          show parseMembers (f + 1)
            ((dumpStr kv.1 ++ 58 :: 32 :: dumps kv.2) ++ 125 :: rest) =
            some ([kv], rest)
          rw [show (dumpStr kv.1 ++ 58 :: 32 :: dumps kv.2) ++ 125 :: rest =
              34 :: (kv.1.flatMap escapeCp ++
                34 :: (58 :: 32 :: (dumps kv.2 ++ 125 :: rest))) from by
            unfold dumpStr; simp [List.append_assoc]]
          have hlen' : (dumps kv.2).length + 2 ≤ f + 1 := by
            rw [show dumpMembers [kv] = dumpStr kv.1 ++ 58 :: 32 :: dumps kv.2 from rfl]
              at hlen
            simp only [List.length_append, List.length_cons] at hlen
            omega
          have hps := parseStr_round kv.1 (58 :: 32 :: (dumps kv.2 ++ 125 :: rest)) hwfk
          have hpv : parseVal f (dumps kv.2 ++ 125 :: rest) = some (kv.2, 125 :: rest) := by
            apply ihV kv.2 _ hwfv (bnd_cons 125 rest (Or.inr (Or.inr rfl)))
            omega
          simp [parseMembers, hps, hpv, List.take, List.drop]
        | cons kv2 kvs'' =>
          show parseMembers (f + 1)
            ((dumpStr kv.1 ++ 58 :: 32 :: dumps kv.2 ++
              44 :: 32 :: dumpMembers (kv2 :: kvs'')) ++ 125 :: rest) =
            some (kv :: kv2 :: kvs'', rest)
          rw [show (dumpStr kv.1 ++ 58 :: 32 :: dumps kv.2 ++
              44 :: 32 :: dumpMembers (kv2 :: kvs'')) ++ 125 :: rest =
              34 :: (kv.1.flatMap escapeCp ++
                34 :: (58 :: 32 :: (dumps kv.2 ++
                  44 :: 32 :: (dumpMembers (kv2 :: kvs'') ++ 125 :: rest)))) from by
            unfold dumpStr; simp [List.append_assoc]]
          have hlen' : (dumps kv.2).length + (dumpMembers (kv2 :: kvs'')).length + 6 ≤
              f + 1 := by
            rw [show dumpMembers (kv :: kv2 :: kvs'') = dumpStr kv.1 ++
              58 :: 32 :: dumps kv.2 ++ 44 :: 32 :: dumpMembers (kv2 :: kvs'') from rfl]
              at hlen
            simp only [List.length_append, List.length_cons] at hlen
            omega
          have hps := parseStr_round kv.1
            (58 :: 32 :: (dumps kv.2 ++ 44 :: 32 ::
              (dumpMembers (kv2 :: kvs'') ++ 125 :: rest))) hwfk
          have hpv : parseVal f (dumps kv.2 ++
              44 :: 32 :: (dumpMembers (kv2 :: kvs'') ++ 125 :: rest)) =
              some (kv.2, 44 :: 32 :: (dumpMembers (kv2 :: kvs'') ++ 125 :: rest)) := by
            apply ihV kv.2 _ hwfv (bnd_cons 44 _ (Or.inl rfl))
            omega
          have hpm : parseMembers f (dumpMembers (kv2 :: kvs'') ++ 125 :: rest) =
              some (kv2 :: kvs'', rest) := by
            apply ihM _ _ (by simp) (fun z hz => hk z (List.mem_cons_of_mem _ hz))
              (fun z hz => hv z (List.mem_cons_of_mem _ hz))
            omega
          simp [parseMembers, hps, hpv, hpm, List.take, List.drop]

/-- Round trip of the modelled json.dumps/json.loads pair (with UTF-8
encoding in between) on well-formed values. -/
theorem loads_round (v : JVal) (hwf : JWF v) : loads (utf8 (dumps v)) = some v := by
  unfold loads
  rw [utf8Dec_round (dumps v) (dumps_mem_lt v hwf)]
  dsimp only
  have hp := (parse_round ((dumps v).length + 1)).1 v [] hwf (Or.inl rfl) le_rfl
  rw [List.append_nil] at hp
  rw [hp]

theorem encode_message_eq (m : JVal) :
    encode_message m = frameBytes (utf8 (dumps m)) := rfl

theorem word32_be32 (n : Nat) (h : n < 4294967296) :
    word32 (n / 16777216 % 256) (n / 65536 % 256) (n / 256 % 256) (n % 256) = n := by
  unfold word32
  omega

theorem extractGo_incomplete (fuel : Nat) (r : List Nat) (h : Incomplete r) :
    extractGo fuel r = ([], r) := by
  cases fuel with
  | zero => rfl
  | succ f =>
    rcases h with hlen | ⟨a, b, c, d, t, rfl, hlt⟩
    · rcases r with _ | ⟨a, _ | ⟨b, _ | ⟨c, _ | ⟨d, t⟩⟩⟩⟩
      · rfl
      · rfl
      · rfl
      · rfl
      · simp at hlen
        omega
    · simp [extractGo, if_pos hlt]

theorem extractGo_stream : ∀ (ms : List (List Nat)) (fuel : Nat) (t : List Nat),
    Incomplete t → (∀ p ∈ ms, p.length < 4294967296) →
    ((ms.map frameBytes).flatten ++ t).length ≤ fuel →
    extractGo fuel ((ms.map frameBytes).flatten ++ t) = (ms, t) := by
  intro ms
  induction ms with
  | nil =>
    intro fuel t hinc hlen hfuel
    simp only [List.map_nil, List.flatten_nil, List.nil_append]
    exact extractGo_incomplete fuel t hinc
  | cons p ms' ih =>
    intro fuel t hinc hlen hfuel
    have hplen := hlen p (List.mem_cons_self _ _)
    simp only [List.map_cons, List.flatten_cons, List.append_assoc] at hfuel ⊢
    rcases fuel with _ | f
    · exfalso
      simp only [frameBytes, be32, List.length_append, List.length_cons] at hfuel
      omega
    · obtain ⟨b1, b2, b3, b4, hbe, hw⟩ : ∃ b1 b2 b3 b4,
          be32 p.length = [b1, b2, b3, b4] ∧ word32 b1 b2 b3 b4 = p.length :=
        ⟨_, _, _, _, rfl, word32_be32 p.length hplen⟩
      rw [show frameBytes p = be32 p.length ++ p from rfl, hbe]
      simp only [List.cons_append, List.nil_append, List.append_assoc]
      simp only [extractGo, hw]
      rw [if_neg (by simp only [List.length_append]; omega)]
      rw [List.take_left, List.drop_left]
      rw [ih f t hinc (fun q hq => hlen q (List.mem_cons_of_mem _ hq))
        (by simp only [frameBytes, be32, List.length_append, List.length_cons,
          List.length_nil] at hfuel ⊢; omega)]

theorem be32_length (n : Nat) : (be32 n).length = 4 := rfl

theorem stream_split : ∀ (ms : List (List Nat)) (p q : List Nat),
    (∀ m ∈ ms, m.length < 4294967296) →
    p ++ q = (ms.map frameBytes).flatten →
    ∃ ms1 ms2 t, ms = ms1 ++ ms2 ∧ p = (ms1.map frameBytes).flatten ++ t ∧
      Incomplete t ∧ t ++ q = (ms2.map frameBytes).flatten := by
  intro ms
  induction ms with
  | nil =>
    intro p q hlen heq
    simp only [List.map_nil, List.flatten_nil] at heq
    obtain ⟨hp, hq⟩ := List.append_eq_nil.mp heq
    subst hp
    subst hq
    exact ⟨[], [], [], rfl, by simp, Or.inl (by simp), by simp⟩
  | cons m ms' ih =>
    intro p q hlen heq
    simp only [List.map_cons, List.flatten_cons] at heq
    by_cases hcase : p.length < 4 + m.length
    · refine ⟨[], m :: ms', p, rfl, by simp, ?_, by
        simp only [List.map_cons, List.flatten_cons]
        exact heq⟩
      by_cases h4 : p.length < 4
      · exact Or.inl h4
      · right
        have hmlen := hlen m (List.mem_cons_self _ _)
        have htake : p.take 4 = be32 m.length := by
          have h1 : (p ++ q).take 4 = p.take 4 :=
            List.take_append_of_le_length (by omega)
          have h2 : (frameBytes m ++ (ms'.map frameBytes).flatten).take 4 =
              be32 m.length := by
            rw [show frameBytes m ++ (ms'.map frameBytes).flatten =
              be32 m.length ++ (m ++ (ms'.map frameBytes).flatten) from by
                simp [frameBytes, List.append_assoc]]
            exact List.take_left' (be32_length m.length)
          rw [heq, h2] at h1
          exact h1.symm
        rcases p with _ | ⟨b1, _ | ⟨b2, _ | ⟨b3, _ | ⟨b4, t'⟩⟩⟩⟩
        · simp at h4
        · simp at h4
        · simp at h4
        · simp at h4
        · have hcomp : [b1, b2, b3, b4] = be32 m.length := by
            simpa [List.take] using htake
          have hw : word32 b1 b2 b3 b4 = m.length := by
            have e1 : b1 = m.length / 16777216 % 256 := by
              have := congrArg (fun l => l.get? 0) hcomp
              simpa [be32] using this
            have e2 : b2 = m.length / 65536 % 256 := by
              have := congrArg (fun l => l.get? 1) hcomp
              simpa [be32] using this
            have e3 : b3 = m.length / 256 % 256 := by
              have := congrArg (fun l => l.get? 2) hcomp
              simpa [be32] using this
            have e4 : b4 = m.length % 256 := by
              have := congrArg (fun l => l.get? 3) hcomp
              simpa [be32] using this
            rw [e1, e2, e3, e4]
            exact word32_be32 m.length hmlen
          refine ⟨b1, b2, b3, b4, t', rfl, ?_⟩
          rw [hw]
          simp only [List.length_cons] at hcase
          omega
    · push_neg at hcase
      have hK : (frameBytes m).length = 4 + m.length := by
        simp [frameBytes, be32]
        omega
      have htake : p.take (4 + m.length) = frameBytes m := by
        have h1 : (p ++ q).take (4 + m.length) = p.take (4 + m.length) :=
          List.take_append_of_le_length hcase
        rw [heq, List.take_left' hK] at h1
        exact h1.symm
      have hdrop : p.drop (4 + m.length) ++ q = (ms'.map frameBytes).flatten := by
        have h1 : (p ++ q).drop (4 + m.length) = p.drop (4 + m.length) ++ q :=
          List.drop_append_of_le_length hcase
        rw [heq, List.drop_left' hK] at h1
        exact h1.symm
      obtain ⟨ms1, ms2, t, hms, hp', hinc, ht⟩ := ih (p.drop (4 + m.length)) q
        (fun z hz => hlen z (List.mem_cons_of_mem _ hz)) hdrop
      refine ⟨m :: ms1, ms2, t, by rw [hms]; rfl, ?_, hinc, ht⟩
      conv_lhs => rw [← List.take_append_drop (4 + m.length) p]
      rw [htake, hp']
      simp [List.append_assoc]

theorem clientPayloads_stream : ∀ (chunks : List (List Nat)) (t : List Nat)
    (ms : List (List Nat)),
    Incomplete t → (∀ m ∈ ms, m.length < 4294967296) →
    t ++ chunks.flatten = (ms.map frameBytes).flatten →
    clientPayloads t chunks = ms := by
  intro chunks
  induction chunks with
  | nil =>
    intro t ms hinc hlen heq
    simp only [List.flatten_nil, List.append_nil] at heq
    cases ms with
    | nil => rfl
    | cons m ms' =>
      exfalso
      simp only [List.map_cons, List.flatten_cons] at heq
      rw [show frameBytes m ++ (ms'.map frameBytes).flatten =
          (m.length / 16777216 % 256) :: (m.length / 65536 % 256) ::
            (m.length / 256 % 256) :: (m.length % 256) ::
            (m ++ (ms'.map frameBytes).flatten) from by
        simp [frameBytes, be32, List.append_assoc]] at heq
      rcases hinc with h4 | ⟨a, b, c, d, t'', ht, hlt⟩
      · rw [heq] at h4
        simp at h4
        omega
      · rw [ht] at heq
        simp only [List.cons.injEq] at heq
        obtain ⟨ha, hb, hc, hd, ht''⟩ := heq
        rw [ha, hb, hc, hd, word32_be32 m.length (hlen m (List.mem_cons_self _ _))] at hlt
        rw [ht''] at hlt
        simp only [List.length_append] at hlt
        omega
  | cons ck cks ih =>
    intro t ms hinc hlen heq
    obtain ⟨ms1, ms2, t', hms, hp, hinc', ht'⟩ := stream_split ms (t ++ ck) cks.flatten
      hlen (by rw [← heq]; simp [List.append_assoc])
    have hex : extractFrames (t ++ ck) = (ms1, t') := by
      unfold extractFrames
      rw [hp]
      exact extractGo_stream ms1 _ t' hinc'
        (fun z hz => hlen z (by rw [hms]; exact List.mem_append_left _ hz)) le_rfl
    simp only [clientPayloads, hex]
    rw [ih t' ms2 hinc'
      (fun z hz => hlen z (by rw [hms]; exact List.mem_append_right _ hz)) ht']
    rw [hms]

theorem filterMap_loads (l : List JVal) (hwf : ∀ m ∈ l, JWF m) :
    (l.map fun m => utf8 (dumps m)).filterMap loads = l := by
  induction l with
  | nil => rfl
  | cons m rest ih =>
    simp only [List.map_cons, List.filterMap_cons]
    rw [loads_round m (hwf m (List.mem_cons_self _ _))]
    rw [ih fun z hz => hwf z (List.mem_cons_of_mem _ hz)]

/-- C8: encoding any sequence of well-formed control messages with the
4-byte big-endian length prefix plus UTF-8 JSON framing, splitting the
resulting byte stream into read chunks in any way whatsoever, and feeding
the chunks through the server's framing loop delivers exactly the original
messages, each key/value structure reproduced exactly. -/
theorem c8_wire_roundtrip (msgs : List JVal) (chunks : List (List Nat))
    (hwf : ∀ m ∈ msgs, JWF m)
    (hlen : ∀ m ∈ msgs, (utf8 (dumps m)).length < 4294967296)
    (hchunks : chunks.flatten = (msgs.map encode_message).flatten) :
    clientMessages chunks = msgs := by
  unfold clientMessages
  have hpl : clientPayloads [] chunks = msgs.map fun m => utf8 (dumps m) := by
    apply clientPayloads_stream chunks [] _ (Or.inl (by simp))
      (fun z hz => by
        obtain ⟨m, hm, rfl⟩ := List.mem_map.mp hz
        exact hlen m hm)
    rw [List.nil_append, hchunks, List.map_map]
    rfl
  rw [hpl, filterMap_loads msgs hwf]

/-- Witness for C8: the message is the object with key "t" (code point 116)
mapped to 5; its 12-byte framed encoding is split into three uneven read
chunks, one of which straddles the length header and the payload. -/
theorem c8_wire_roundtrip_witness :
    clientMessages [[0, 0], [0, 8, 123, 34, 116], [34, 58, 32, 53, 125]] =
      [JVal.jobj [([116], JVal.jint 5)]] :=
  c8_wire_roundtrip [JVal.jobj [([116], JVal.jint 5)]]
    [[0, 0], [0, 8, 123, 34, 116], [34, 58, 32, 53, 125]]
    (by
      intro m hm
      simp only [List.mem_singleton] at hm
      subst hm
      refine JWF.jobj _ ?_ ?_
      · intro kv hkv
        simp only [List.mem_singleton] at hkv
        subst hkv
        intro c hc
        simp only [List.mem_singleton] at hc
        subst hc
        exact ⟨by omega, by omega⟩
      · intro kv hkv
        simp only [List.mem_singleton] at hkv
        subst hkv
        exact JWF.jint 5)
    (by
      intro m hm
      simp only [List.mem_singleton] at hm
      subst hm
      decide)
    rfl

end OpenClaw
